import Mathlib

/-!
Verification of the core of the `p-queue` promise-queue library
(`src/source/index.ts`, `src/source/priority-queue.ts`,
`src/unnamed/part_006` = `lower-bound.ts`).

Shallow embedding conventions:
* JS numbers holding times and priorities are modelled as `Int` (all times
  produced by `Date.now()` are integers, and subtraction such as
  `intervalEnd - now` may be negative).
* Counts (`pending`, `intervalCount`, array indices) are `Nat`.
* `concurrency` and `intervalCap` are "a number >= 1 or Infinity"; the spec's
  data model (section 3) restricts them to positive integers or +inf, so they
  are modelled as `Option Nat` with `none` standing for Infinity.
* `Partial<...>` option fields are modelled as `Option`; an absent field is
  `none` (the JS distinction between an absent key and a key explicitly set
  to `undefined` is not modelled).
* An `AbortSignal` is modelled by the boolean `aborted` it reports at the
  moment the task is admitted together with its `reason`.
* Promise-returning closures stored in the queue are modelled by the record
  of data they capture (`TaskBody`); timers by the presence of a handle.
-/

namespace PQ

/-- Per-call options of `PQueue.add` (a `Partial<QueueAddOptions>`):
`id?`, `priority?`, `timeout?` and the abort signal (modelled by the
aborted/reason pair it would report when the task is admitted). -/
structure AddOpts where
  id : Option String := none
  priority : Option Int := none
  timeout : Option Int := none
  aborted : Bool := false
  reason : String := ""
  deriving DecidableEq, Repr

/-- The data captured by the `run` closure that `PQueue.add` enqueues:
the (already assigned) `id`, the user `priority` (still optional, the
closure reads `options.priority ?? 0`), the effective `timeout`, and the
abort signal. -/
structure TaskBody where
  id : String
  priority : Option Int := none
  timeout : Option Int := none
  aborted : Bool := false
  reason : String := ""
  deriving DecidableEq, Repr

/-- One element of `PriorityQueue`'s internal `#queue` array:
`{priority: options.priority, index: options.index, run}`
(`src/source/priority-queue.ts`, `enqueue`).  The payload type `α` stands
for the `run` closure. -/
structure PQElem (α : Type) where
  priority : Int
  index : Option String
  run : α
  deriving DecidableEq, Repr

/-- The options record handed to `PriorityQueue.enqueue`: only `priority`
and `index` are read by it. -/
structure EnqOpts where
  priority : Option Int := none
  index : Option String := none
  deriving DecidableEq, Repr

/-! ### `lower-bound.ts` (`src/unnamed/part_006`)

`lowerBound(array, value, comp)` with `comp = (a, b) => b.priority - a.priority`;
the branch test `comp(array[it], value) <= 0` is `value.priority <= array[it].priority`.
Since `comp` only reads priorities, the loop is embedded over the list of
priorities.  `(count / 2) | 0` is truncating division of a nonnegative count. -/

/-- The `while (count > 0)` loop of `lowerBound`, specialised to the
comparator used by `PriorityQueue.enqueue`.  `first`/`count` as in the source;
recursion is on `count`, which strictly decreases in both branches. -/
def lbLoop (ps : List Int) (p : Int) (first count : Nat) : Nat :=
  if h : count = 0 then first
  else
    let step := count / 2
    if p ≤ ps.getD (first + step) 0 then
      lbLoop ps p (first + step + 1) (count - step - 1)
    else
      lbLoop ps p first step
termination_by count
decreasing_by
  · omega
  · exact Nat.bitwise_rec_lemma h

/-- `lowerBound(this.#queue, element, comp)` as used by `enqueue`. -/
def lowerBound {α : Type} (q : List (PQElem α)) (p : Int) : Nat :=
  lbLoop (q.map (·.priority)) p 0 q.length

/-- `PriorityQueue.enqueue(run, options)`: default the priority to 0, append
when the queue is empty or the tail's priority is at least the new one,
otherwise splice at the `lowerBound` insertion index. -/
def pqEnqueue {α : Type} (q : List (PQElem α)) (run : α) (opts : EnqOpts) : List (PQElem α) :=
  let p := opts.priority.getD 0
  let e : PQElem α := ⟨p, opts.index, run⟩
  if q.length = 0 ∨ (match q.getLast? with
    | some last => decide (p ≤ last.priority)
    | none => true) = true then q ++ [e]
  else q.insertIdx (lowerBound q p) e

/-- `PriorityQueue.setPriority(index, priority)`: find the first element with
`element.index === index`; throw `ReferenceError` (modelled `Except.error ()`)
when there is none, otherwise splice it out and re-`enqueue` it with options
`{priority, index}`. -/
def pqSetPriority {α : Type} (q : List (PQElem α)) (index : String) (p : Int) :
    Except Unit (List (PQElem α)) :=
  let i := q.findIdx (fun e => e.index = some index)
  if h : i < q.length then
    let item := q.get ⟨i, h⟩
    .ok (pqEnqueue (q.eraseIdx i) item.run { priority := some p, index := some index })
  else .error ()

/-- `PriorityQueue.dequeue()`: `shift` the head. -/
def pqDequeue {α : Type} (q : List (PQElem α)) : Option (PQElem α) × List (PQElem α) :=
  (q.head?, q.tail)

/-- `PriorityQueue.filter(options)`: keep exactly the elements with
`element.priority === options.priority` (a strict-equality comparison, which
is false whenever `options.priority` is `undefined`). -/
def pqFilterPred (optPriority : Option Int) {α : Type} (e : PQElem α) : Bool :=
  match optPriority with
  | some p => e.priority = p
  | none => false

/-- `PriorityQueue.filter(options)` itself. -/
def pqFilter {α : Type} (optPriority : Option Int) (q : List (PQElem α)) : List (PQElem α) :=
  q.filter (pqFilterPred optPriority)

/-! ### `PQueue` state (`src/source/index.ts`) -/

/-- The readonly configuration fixed by the constructor:
`#strict`, `#intervalCap`, `#interval`, `#carryoverIntervalCount`.
`none` for `intervalCap` is `Infinity`. -/
structure Config where
  strict : Bool
  intervalCap : Option Nat
  interval : Int
  carryover : Bool
  deriving DecidableEq, Repr

/-- Constructor validation relevant to the modelled fields:
`interval` finite and `>= 0`, `intervalCap >= 1`, and in strict mode a
non-zero `interval` and a finite `intervalCap`. -/
def Config.Valid (cfg : Config) : Prop :=
  0 ≤ cfg.interval ∧ (∀ m, cfg.intervalCap = some m → 1 ≤ m) ∧
    (cfg.strict = true → 0 < cfg.interval ∧ cfg.intervalCap ≠ none)

instance (cfg : Config) : Decidable cfg.Valid := by
  unfold Config.Valid; infer_instance

/-- `#isIntervalIgnored = intervalCap === Infinity || interval === 0`. -/
def Config.ignored (cfg : Config) : Bool :=
  cfg.intervalCap.isNone || cfg.interval == 0

/-- One value of the `#runningTasks` map: `{id, priority, startTime, timeout}`. -/
structure RunRec where
  id : String
  priority : Int
  startTime : Int
  timeout : Option Int
  deriving DecidableEq, Repr

/-- `n < c` for a count against a possibly-infinite bound (`#pending <
#concurrency`, `count < #intervalCap`); `Infinity` allows everything. -/
def natLtCap (n : Nat) : Option Nat → Bool
  | none => true
  | some c => n < c

/-- `n >= c` against a possibly-infinite bound (`count >= #intervalCap`);
nothing reaches `Infinity`. -/
def natGeCap (n : Nat) : Option Nat → Bool
  | none => false
  | some c => c ≤ n

/-- `n ≤ c` against a possibly-infinite bound (the invariant
`pending ≤ concurrency`). -/
def natLeCap (n : Nat) : Option Nat → Bool
  | none => true
  | some c => n ≤ c

/-- The mutable state of a `PQueue`.  `intervalId`/`timeoutId` model whether
the window timer / resume timeout is armed (`timeoutId` keeps the requested
delay).  `symCounter` models the allocation of fresh task `Symbol`s;
`scheduledNexts` counts `queueMicrotask(() => this.#next())` calls whose
microtask has not run yet.  `ghostExec` is a history variable recording the
`now` of every admission that actually started the user function; no
operation ever reads it. -/
structure QState where
  queue : List (PQElem TaskBody)
  pending : Nat
  concurrency : Option Nat
  isPaused : Bool
  intervalCount : Nat
  strictTicks : List Int
  strictTicksStartIndex : Nat
  intervalEnd : Int
  lastExecutionTime : Int
  intervalId : Bool
  timeoutId : Option Int
  rateLimited : Bool
  idAssigner : Nat
  timeoutDefault : Option Int
  symCounter : Nat
  runningTasks : List (Nat × RunRec)
  scheduledNexts : Nat
  ghostExec : List Int
  deriving DecidableEq, Repr

/-- The state right after the constructor ran (with `#idAssigner = 1n`,
empty queue, `#isPaused = !autoStart`). -/
def initState (conc : Option Nat) (autoStart : Bool) (timeoutDefault : Option Int) : QState where
  queue := []
  pending := 0
  concurrency := conc
  isPaused := !autoStart
  intervalCount := 0
  strictTicks := []
  strictTicksStartIndex := 0
  intervalEnd := 0
  lastExecutionTime := 0
  intervalId := false
  timeoutId := none
  rateLimited := false
  idAssigner := 1
  timeoutDefault := timeoutDefault
  symCounter := 0
  runningTasks := []
  scheduledNexts := 0
  ghostExec := []

/-- `#getActiveTicksCount()` = `strictTicks.length - strictTicksStartIndex`. -/
def activeCount (s : QState) : Nat :=
  s.strictTicks.length - s.strictTicksStartIndex

/-- The `while` loop of `#cleanupStrictTicks`: advance the start index over
ticks with `now - oldestTick >= interval`.  Fuel is the number of remaining
entries, which bounds the iterations. -/
def dropExpiredFrom (interval now : Int) (ticks : List Int) : Nat → Nat → Nat
  | start, 0 => start
  | start, fuel + 1 =>
    if start < ticks.length then
      if interval ≤ now - ticks.getD start 0 then
        dropExpiredFrom interval now ticks (start + 1) fuel
      else start
    else start

/-- `#cleanupStrictTicks(now)`: advance the start index, then compact when
`(startIndex > 100 && startIndex > length / 2) || startIndex === length`
(`length / 2` is JS float division, so `start > length / 2` is
`2 * start > length`). -/
def cleanupStrictTicks (cfg : Config) (now : Int) (s : QState) : QState :=
  let start := dropExpiredFrom cfg.interval now s.strictTicks s.strictTicksStartIndex
    (s.strictTicks.length - s.strictTicksStartIndex)
  let shouldCompact := (100 < start ∧ s.strictTicks.length < 2 * start) ∨
    start = s.strictTicks.length
  if shouldCompact then
    { s with strictTicks := s.strictTicks.drop start, strictTicksStartIndex := 0 }
  else
    { s with strictTicksStartIndex := start }

/-- `#consumeIntervalSlot(now)`: strict mode pushes the timestamp, fixed
window increments `#intervalCount`. -/
def consumeIntervalSlot (cfg : Config) (now : Int) (s : QState) : QState :=
  if cfg.strict then { s with strictTicks := s.strictTicks ++ [now] }
  else { s with intervalCount := s.intervalCount + 1 }

/-- `#rollbackIntervalSlot()`: strict mode pops the last tick when any remain
past the start index; fixed window decrements `#intervalCount` when positive. -/
def rollbackIntervalSlot (cfg : Config) (s : QState) : QState :=
  if cfg.strict then
    if s.strictTicksStartIndex < s.strictTicks.length then
      { s with strictTicks := s.strictTicks.dropLast }
    else s
  else
    if 0 < s.intervalCount then { s with intervalCount := s.intervalCount - 1 }
    else s

/-- `#rollbackIntervalConsumption()`: no-op when rate limiting is ignored. -/
def rollbackIntervalConsumption (cfg : Config) (s : QState) : QState :=
  if cfg.ignored then s else rollbackIntervalSlot cfg s

/-- `get #doesIntervalAllowAnother`. -/
def doesIntervalAllowAnother (cfg : Config) (s : QState) : Bool :=
  if cfg.ignored then true
  else if cfg.strict then natLtCap (activeCount s) cfg.intervalCap
  else natLtCap s.intervalCount cfg.intervalCap

/-- `get #doesConcurrentAllowAnother` = `#pending < #concurrency`. -/
def doesConcurrentAllowAnother (s : QState) : Bool :=
  natLtCap s.pending s.concurrency

/-- `#createIntervalTimeout(delay)`: arm the resume timeout only when none
is armed yet. -/
def createIntervalTimeout (delay : Int) (s : QState) : QState :=
  if s.timeoutId.isSome then s else { s with timeoutId := some delay }

/-- `#isIntervalPausedAt(now)`.  Strict branch: cleanup, then when at
capacity arm a timeout until the oldest surviving tick ages out.  Fixed
window branch: with no window timer, a not-yet-expired window
(`delay = intervalEnd - now >= 0`) arms the timeout for `delay`; an expired
window still enforces spacing from `#lastExecutionTime`; otherwise the count
is reset to `carryover ? pending : 0`. -/
def isIntervalPausedAt (cfg : Config) (now : Int) (s : QState) : QState × Bool :=
  if cfg.strict then
    let s := cleanupStrictTicks cfg now s
    if natGeCap (activeCount s) cfg.intervalCap then
      let oldestTick := s.strictTicks.getD s.strictTicksStartIndex 0
      (createIntervalTimeout (cfg.interval - (now - oldestTick)) s, true)
    else (s, false)
  else
    if s.intervalId then (s, false)
    else
      let delay := s.intervalEnd - now
      if delay < 0 then
        if 0 < s.lastExecutionTime ∧ now - s.lastExecutionTime < cfg.interval then
          (createIntervalTimeout (cfg.interval - (now - s.lastExecutionTime)) s, true)
        else ({ s with intervalCount := if cfg.carryover then s.pending else 0 }, false)
      else (createIntervalTimeout delay s, true)

/-- `#initializeIntervalIfNeeded()`: start the recurring window timer
(fixed-window mode only) and set `#intervalEnd = Date.now() + interval`. -/
def initIntervalIfNeeded (cfg : Config) (now : Int) (s : QState) : QState :=
  if cfg.ignored || s.intervalId || cfg.strict then s
  else { s with intervalId := true, intervalEnd := now + cfg.interval }

/-- What the synchronous part of the `run` closure did: either it hit the
pre-start abort check (`options.signal?.throwIfAborted()` threw, the
submitter's promise is rejected with the signal's reason and the user's
function was never invoked), or it invoked the user's function. -/
inductive JobStart
  | abortedWith (reason : String)
  | started
  deriving DecidableEq, Repr

/-- The synchronous prefix of the closure `PQueue.add` enqueues, as executed
by `job()` inside `#tryToStartAnother`: increment `#pending`, register the
task in `#runningTasks` under a fresh symbol; then either the pre-start
abort path (rollback the interval consumption, delete the registration,
reject — the deferred `#next()` microtask is recorded in `scheduledNexts`)
or record `#lastExecutionTime = now` and invoke the user's function
(recorded in the `ghostExec` history). -/
def runJobSync (cfg : Config) (now : Int) (body : TaskBody) (s : QState) : QState × JobStart :=
  let sym := s.symCounter
  let s := { s with
    symCounter := sym + 1
    pending := s.pending + 1
    runningTasks := s.runningTasks ++
      [(sym, { id := body.id, priority := body.priority.getD 0, startTime := now,
               timeout := body.timeout })] }
  if body.aborted then
    let s := rollbackIntervalConsumption cfg s
    let s := { s with
      runningTasks := s.runningTasks.filter (fun kv => kv.1 ≠ sym)
      scheduledNexts := s.scheduledNexts + 1 }
    (s, .abortedWith body.reason)
  else
    ({ s with lastExecutionTime := now, ghostExec := s.ghostExec ++ [now] }, .started)

/-- The admission sequence of `#tryToStartAnother` once a job has been
dequeued: consume an interval slot unless rate limiting is ignored, then run
the job's synchronous prefix. -/
def admitJob (cfg : Config) (now : Int) (body : TaskBody) (s : QState) : QState × JobStart :=
  let s := if cfg.ignored then s else consumeIntervalSlot cfg now s
  runJobSync cfg now body s

/-- `#tryToStartAnother()`.  Empty queue: clear the window timer, and when
also nothing is pending clear the resume timeout and compact strict ticks.
Otherwise, when not paused, consult the rate limiter (which may arm a
timeout), and admit the head when both the interval and the concurrency
limit allow it; `#initializeIntervalIfNeeded` runs only when
`#isIntervalPausedAt` returned false. -/
def tryToStartAnother (cfg : Config) (now : Int) (s : QState) : QState × Bool :=
  if s.queue.length = 0 then
    let s := { s with intervalId := false }
    let s :=
      if s.pending = 0 then
        let s := { s with timeoutId := none }
        if cfg.strict ∧ 0 < s.strictTicksStartIndex then cleanupStrictTicks cfg now s else s
      else s
    (s, false)
  else if s.isPaused then (s, false)
  else
    let r := isIntervalPausedAt cfg now s
    let s := r.1
    let canInit := !r.2
    if doesIntervalAllowAnother cfg s && doesConcurrentAllowAnother s then
      match s.queue with
      | [] => (s, false)
      | e :: rest =>
        let s := { s with queue := rest }
        let s := (admitJob cfg now e.run s).1
        let s := if canInit then initIntervalIfNeeded cfg now s else s
        (s, true)
    else (s, false)

/-- `#processQueue()`: `while (this.#tryToStartAnother()) {}`.  Each
successful iteration removes one queue element, so `queue.length + 1` calls
suffice for the loop to reach its exit. -/
def processQueueAux (cfg : Config) (now : Int) : Nat → QState → QState
  | 0, s => s
  | fuel + 1, s =>
    let r := tryToStartAnother cfg now s
    if r.2 then processQueueAux cfg now fuel r.1 else r.1

/-- `#processQueue()` with enough fuel to reach the loop's exit. -/
def processQueue (cfg : Config) (now : Int) (s : QState) : QState :=
  processQueueAux cfg now (s.queue.length + 1) s

/-- `#updateRateLimitState()`: with rate limiting disabled or the queue
empty only a previously set flag is cleared; otherwise the current count
(strict: after cleanup) is compared against `#intervalCap`. -/
def updateRateLimitState (cfg : Config) (now : Int) (s : QState) : QState :=
  if cfg.ignored || s.queue.length == 0 then
    if s.rateLimited then { s with rateLimited := false } else s
  else
    let r := if cfg.strict then
        let s := cleanupStrictTicks cfg now s
        (s, activeCount s)
      else (s, s.intervalCount)
    { r.1 with rateLimited := natGeCap r.2 cfg.intervalCap }

/-- `#next()`: decrement `#pending` (its `queueMicrotask` bookkeeping is the
`scheduledNexts` counter), then `#tryToStartAnother()`. -/
def nextOp (cfg : Config) (now : Int) (s : QState) : QState :=
  let s := { s with pending := s.pending - 1, scheduledNexts := s.scheduledNexts - 1 }
  (tryToStartAnother cfg now s).1

/-- The settling of a running task (the tail of the closure after the user's
function finished or was rejected): the `finally` block removes the task
from `#runningTasks` and schedules `#next()` as a microtask. -/
def completeOp (sym : Nat) (s : QState) : QState :=
  { s with
    runningTasks := s.runningTasks.filter (fun kv => kv.1 ≠ sym)
    scheduledNexts := s.scheduledNexts + 1 }

/-- `#onInterval()`: in fixed-window mode, possibly clear the window timer
(`intervalCount == 0 && pending == 0`), reset the count to
`carryover ? pending : 0`, and drain the queue. -/
def onIntervalOp (cfg : Config) (now : Int) (s : QState) : QState :=
  let s :=
    if !cfg.strict then
      let s := if s.intervalCount = 0 ∧ s.pending = 0 ∧ s.intervalId then
          { s with intervalId := false }
        else s
      { s with intervalCount := if cfg.carryover then s.pending else 0 }
    else s
  processQueue cfg now s

/-- `#onResumeInterval()`: clear the resume timeout, run `#onInterval()`,
then `#initializeIntervalIfNeeded()`. -/
def onResumeOp (cfg : Config) (now : Int) (s : QState) : QState :=
  let s := { s with timeoutId := none }
  let s := onIntervalOp cfg now s
  initIntervalIfNeeded cfg now s

/-- `(this.#idAssigner++).toString()` guarded by `options.id ?? ...`: a
user-supplied id is used verbatim and does not touch the counter; an omitted
id receives the decimal rendering of the counter, which is then incremented. -/
def assignId (optId : Option String) (ctr : Nat) : String × Nat :=
  match optId with
  | some s => (s, ctr)
  | none => (Nat.repr ctr, ctr + 1)

/-- `PQueue.add(function_, options)` up to its synchronous end: fill the
timeout from the queue default, assign the id, enqueue the `run` closure
with the full options object (whose `index` property is absent), emit `add`,
and call `#tryToStartAnother()` once. -/
def addOp (cfg : Config) (now : Int) (o : AddOpts) (s : QState) : QState :=
  let r := assignId o.id s.idAssigner
  let body : TaskBody :=
    { id := r.1, priority := o.priority,
      timeout := (o.timeout.orElse fun _ => s.timeoutDefault),
      aborted := o.aborted, reason := o.reason }
  let s := { s with
    idAssigner := r.2
    queue := pqEnqueue s.queue body { priority := o.priority, index := none } }
  (tryToStartAnother cfg now s).1

/-- `PQueue.start()`: when paused, unpause and drain. -/
def startOp (cfg : Config) (now : Int) (s : QState) : QState :=
  if !s.isPaused then s
  else processQueue cfg now { s with isPaused := false }

/-- The `concurrency` setter (after its `>= 1` validation): store the new
value and drain. -/
def setConcOp (cfg : Config) (now : Int) (c : Option Nat) (s : QState) : QState :=
  processQueue cfg now { s with concurrency := c }

/-- `PQueue.clear()`: replace the queue with a fresh one, clear the window
timer, recompute the rate-limit state synchronously, and when nothing is
pending clear the resume timeout.  `#runningTasks` and the strict tick
history are deliberately untouched. -/
def clearOp (cfg : Config) (now : Int) (s : QState) : QState :=
  let s := { s with queue := ([] : List (PQElem TaskBody)) }
  let s := { s with intervalId := false }
  let s := updateRateLimitState cfg now s
  if s.pending = 0 then { s with timeoutId := none } else s

/-- `PQueue.setPriority(id, priority)` (after the finiteness validation):
delegate to `PriorityQueue.setPriority`; the `ReferenceError` propagates
synchronously. -/
def setPriorityOp (id : String) (p : Int) (s : QState) : Except Unit QState :=
  match pqSetPriority s.queue id p with
  | .error e => .error e
  | .ok q => .ok { s with queue := q }

/-- `PQueue.sizeBy(options)` = `this.#queue.filter(options).length`, with the
state it leaves behind (the filter does not mutate the queue). -/
def sizeByOp (optPriority : Option Int) (s : QState) : Nat × QState :=
  ((pqFilter optPriority s.queue).length, s)

/-- Validation of a concurrency value: "a number from 1 and up" (the spec's
data model restricts it to a positive integer or Infinity). -/
def concValid : Option Nat → Prop
  | none => True
  | some c => 1 ≤ c

instance : (c : Option Nat) → Decidable (concValid c)
  | none => by unfold concValid; infer_instance
  | some _ => by unfold concValid; infer_instance

/-! ### The event system

A `Step cfg now s s'` is one synchronous state transition of the queue at
wall-clock time `now`: a public operation, a timer firing, the deferred
`#next()` microtask, the rate-limit flush microtask, or a running task
settling.  `Reach` closes the steps under nondecreasing `Date.now()` values,
starting from a freshly constructed queue. -/

/-- One synchronous transition of the queue at time `now`. -/
inductive Step (cfg : Config) (now : Int) (s : QState) : QState → Prop
  | add (o : AddOpts) : Step cfg now s (addOp cfg now o s)
  | complete (sym : Nat) (h : sym ∈ s.runningTasks.map Prod.fst) :
      Step cfg now s (completeOp sym s)
  | nextTick (h : 0 < s.scheduledNexts) : Step cfg now s (nextOp cfg now s)
  | start : Step cfg now s (startOp cfg now s)
  | pause : Step cfg now s { s with isPaused := true }
  | clear : Step cfg now s (clearOp cfg now s)
  | setConc (c : Option Nat) (h : concValid c) : Step cfg now s (setConcOp cfg now c s)
  | setPrio (id : String) (p : Int) (s' : QState) (h : setPriorityOp id p s = .ok s') :
      Step cfg now s s'
  | windowFire (h : s.intervalId = true) : Step cfg now s (onIntervalOp cfg now s)
  | resumeFire (h : s.timeoutId.isSome) : Step cfg now s (onResumeOp cfg now s)
  | flush : Step cfg now s (updateRateLimitState cfg now s)

/-- `Reach cfg t s`: the queue constructed with configuration `cfg` can be in
state `s` when `Date.now()` last returned `t`.  `Date.now()` is monotone, so
step times are nondecreasing. -/
inductive Reach (cfg : Config) : Int → QState → Prop
  | init (t₀ : Int) (conc : Option Nat) (autoStart : Bool) (timeoutDefault : Option Int)
      (h₀ : 0 ≤ t₀) (hc : concValid conc) (hv : cfg.Valid) :
      Reach cfg t₀ (initState conc autoStart timeoutDefault)
  | step {t t' : Int} {s s' : QState} (hr : Reach cfg t s) (hle : t ≤ t')
      (hs : Step cfg t' s s') : Reach cfg t' s'

/-- Reachability restricted to runs in which the `concurrency` setter is
never used to drop the limit below the tasks already running: every step
either leaves `concurrency` unchanged or moves to a value that still
accommodates the current `pending`. -/
inductive ReachNC (cfg : Config) : Int → QState → Prop
  | init (t₀ : Int) (conc : Option Nat) (autoStart : Bool) (timeoutDefault : Option Int)
      (h₀ : 0 ≤ t₀) (hc : concValid conc) (hv : cfg.Valid) :
      ReachNC cfg t₀ (initState conc autoStart timeoutDefault)
  | step {t t' : Int} {s s' : QState} (hr : ReachNC cfg t s) (hle : t ≤ t')
      (hs : Step cfg t' s s')
      (hconc : s'.concurrency = s.concurrency ∨ natLeCap s.pending s'.concurrency = true) :
      ReachNC cfg t' s'

/-! ### Auxiliary definitions used by the statements and proofs -/

/-- The ticks counted "from the circular-buffer start index". -/
def activeTicks (s : QState) : List Int :=
  s.strictTicks.drop s.strictTicksStartIndex

/-- A timestamp `x` lies within the last `interval` ms before `t`
(the complement of the eviction test `now - oldestTick >= interval`). -/
def inWindow (interval t x : Int) : Bool :=
  decide (t - x < interval)

/-- How many of the timestamps `tks` fall in the rolling window
`(t - interval, t]`. -/
def windowCount (interval : Int) (tks : List Int) (t : Int) : Nat :=
  tks.countP (fun x => decide (t - x < interval ∧ x ≤ t))

/-- The inductive invariant for the strict-mode rate limiter at current time
`t`: the buffer indices are in range, ticks and the execution history are
sorted and in the past; and in strict mode the in-window ticks never exceed
the cap, every in-window execution still has its tick in the active buffer,
and every rolling window contains at most `intervalCap` executions. -/
structure StrictInv (cfg : Config) (t : Int) (s : QState) : Prop where
  startLe : s.strictTicksStartIndex ≤ s.strictTicks.length
  ticksSorted : s.strictTicks.Sorted (· ≤ ·)
  ticksLe : ∀ x ∈ s.strictTicks, x ≤ t
  ghostSorted : s.ghostExec.Sorted (· ≤ ·)
  ghostLe : ∀ x ∈ s.ghostExec, x ≤ t
  activeBound : cfg.strict = true → ∀ m, cfg.intervalCap = some m →
    (activeTicks s).countP (inWindow cfg.interval t) ≤ m
  ghostSub : cfg.strict = true →
    (↑(s.ghostExec.filter (inWindow cfg.interval t)) : Multiset Int) ≤
      (↑(activeTicks s) : Multiset Int)
  windowBound : cfg.strict = true → ∀ m, cfg.intervalCap = some m →
    ∀ t₀, windowCount cfg.interval s.ghostExec t₀ ≤ m

/-- Driver for the priority-queue claims: a sequence of `enqueue`/`dequeue`
operations.  Enqueued payloads are consecutive sequence numbers (the
submission order); `enqueue` passes options with the given `priority` and no
`index`, exactly as `PQueue.add` does. -/
inductive PQOp
  | enq (priority : Option Int)
  | deq
  deriving DecidableEq, Repr

/-- Run a sequence of operations against the priority queue, threading the
next sequence number. -/
def runPQ : List PQOp → List (PQElem Nat) × Nat → List (PQElem Nat) × Nat
  | [], st => st
  | .enq p :: ops, (q, n) => runPQ ops (pqEnqueue q n { priority := p, index := none }, n + 1)
  | .deq :: ops, (q, n) => runPQ ops ((pqDequeue q).2, n)

/-- `a` is dequeued before `b` under the stable discipline: strictly higher
priority, or equal priority and earlier submission. -/
def stableBefore (a b : PQElem Nat) : Prop :=
  b.priority < a.priority ∨ (a.priority = b.priority ∧ a.run < b.run)

/-- Modelled from the words of claim C9: a waiting record "matches the given
options" when every option field that is present agrees with the record
(`priority` with the stored priority, `id` with the task's id). -/
def matchesOptsSpec (o : AddOpts) (e : PQElem TaskBody) : Bool :=
  (match o.priority with
    | some p => decide (e.priority = p)
    | none => true) &&
  (match o.id with
    | some i => decide (e.run.id = i)
    | none => true)

/-- Modelled from the words of claim C7 (the fixed-window
`is-paused-at(now)` description, with its strict `interval-end > now`
first arm), for comparison against `isIntervalPausedAt`. -/
def fixedPausedClaim (cfg : Config) (now : Int) (s : QState) : QState × Bool :=
  if now < s.intervalEnd then
    ({ s with timeoutId := some (s.intervalEnd - now) }, true)
  else if 0 < s.lastExecutionTime ∧ now - s.lastExecutionTime < cfg.interval then
    ({ s with timeoutId := some (cfg.interval - (now - s.lastExecutionTime)) }, true)
  else ({ s with intervalCount := if cfg.carryover then s.pending else 0 }, false)

/-- Claim C7 amended at its boundary: the first arm fires for
`interval-end ≥ now` (the code tests `delay = intervalEnd - now < 0`), the
spacing arm only for `interval-end < now`. -/
def fixedPausedAmended (cfg : Config) (now : Int) (s : QState) : QState × Bool :=
  if now ≤ s.intervalEnd then
    ({ s with timeoutId := some (s.intervalEnd - now) }, true)
  else if 0 < s.lastExecutionTime ∧ now - s.lastExecutionTime < cfg.interval then
    ({ s with timeoutId := some (cfg.interval - (now - s.lastExecutionTime)) }, true)
  else ({ s with intervalCount := if cfg.carryover then s.pending else 0 }, false)

/-- A configuration with rate limiting disabled (the constructor defaults:
`intervalCap: Infinity`, `interval: 0`). -/
def cfgPlain : Config where
  strict := false
  intervalCap := none
  interval := 0
  carryover := false

/-- A plain `add()` call: no options supplied. -/
def oPlain : AddOpts := {}

/-- Reached by `new PQueue({concurrency: 2})`, two `add`s (both admitted at
once), then `queue.concurrency = 1`. -/
def c1State : QState :=
  setConcOp cfgPlain 0 (some 1)
    (addOp cfgPlain 0 oPlain (addOp cfgPlain 0 oPlain (initState (some 2) true none)))

/-- Reached by `new PQueue({autoStart: false})` followed by
`add(fn, {id: 'a'})`: the task waits in the queue. -/
def pausedQueueA : QState :=
  addOp cfgPlain 0 { id := some "a" } (initState none false none)

/-- The fixed-window configuration of the C7 boundary counterexample
(`interval: 10`, `intervalCap: 1`). -/
def cfgFW : Config where
  strict := false
  intervalCap := some 1
  interval := 10
  carryover := false

/-- A fixed-window state with no armed timers, `intervalEnd = 5`,
`lastExecutionTime = 0`, a nonzero `intervalCount`: probed at `now = 5`. -/
def sFW : QState :=
  { initState (some 1) true none with intervalEnd := 5, intervalCount := 3, pending := 7 }

/-- The queue state of claim C9's counterexample: one waiting task added via
`add(fn, {id: 'a'})` (priority defaulted to 0). -/
def c9State : QState := pausedQueueA

/-- The options value of claim C9's counterexample: `sizeBy({id: 'a'})`. -/
def opts9 : AddOpts := { id := some "a" }

/-- A strict-mode configuration (`new PQueue({intervalCap: 2, interval: 1000,
strict: true})`), used to instantiate the rolling-window bound. -/
def cfg3 : Config where
  strict := true
  intervalCap := some 2
  interval := 1000
  carryover := false

/-- `PQueue.add`'s id assignment over a whole sequence of calls (the
`options.id ?? (this.#idAssigner++).toString()` line threaded through the
per-queue counter). -/
def assignIds : List (Option String) → Nat → List String
  | [], _ => []
  | o :: rest, c =>
    let r := assignId o c
    r.1 :: assignIds rest r.2

/-- The canonical decimal rendering underlying `Nat.repr` (most significant
digit first), defined by direct recursion for reasoning purposes. -/
def decimalChars (n : Nat) : List Char :=
  if _h : n < 10 then [Nat.digitChar n]
  else decimalChars (n / 10) ++ [Nat.digitChar (n % 10)]
decreasing_by
  exact Nat.div_lt_self (by omega) (by omega)

/-! ### A miniature heap for the `runningTasks` getter (claim C10)

`get runningTasks` returns
`[...this.#runningTasks.values()].map(task => ({...task}))`: a freshly
allocated array of freshly allocated copies.  Object identity is modelled by
addresses into a growing store. -/

/-- A heap object: a running-task record or an array of references. -/
inductive HeapObj
  | taskRec (r : RunRec)
  | taskArr (refs : List Nat)
  deriving DecidableEq, Repr

instance : Inhabited HeapObj := ⟨.taskRec ⟨"", 0, 0, none⟩⟩

/-- Read the object at address `a`. -/
def heapGet (h : List HeapObj) (a : Nat) : Option HeapObj :=
  h.get? a

/-- Overwrite the object at address `a` (a JS mutation of that object). -/
def heapSet (h : List HeapObj) (a : Nat) (v : HeapObj) : List HeapObj :=
  h.set a v

/-- The `runningTasks` getter over a heap `h` in which the internal map's
value objects live at addresses `internal`: allocate one fresh copy per
record (`{...task}`) and a fresh array referencing the copies; return the
array's address, the element addresses, and the new heap. -/
def runningTasksGetter (internal : List Nat) (h : List HeapObj) :
    Nat × List Nat × List HeapObj :=
  let copies := internal.map fun a => (heapGet h a).getD default
  let elemAddrs := List.range' h.length internal.length
  (h.length + internal.length, elemAddrs, h ++ copies ++ [HeapObj.taskArr elemAddrs])

/-! ## Theorems -/

/-- C6: immediately after `clear()` the queue is empty while `pending`, the
running-task registry, and the strict tick history (buffer and start index)
are all unchanged.  (`#updateRateLimitState` takes its early exit because the
queue was just replaced by an empty one, so not even a cleanup touches the
ticks.) -/
theorem clear_empties_queue_and_preserves_rest (cfg : Config) (now : Int) (s : QState) :
    (clearOp cfg now s).queue = [] ∧
    (clearOp cfg now s).pending = s.pending ∧
    (clearOp cfg now s).runningTasks = s.runningTasks ∧
    (clearOp cfg now s).strictTicks = s.strictTicks ∧
    (clearOp cfg now s).strictTicksStartIndex = s.strictTicksStartIndex := by
  unfold clearOp updateRateLimitState
  by_cases hrl : s.rateLimited <;> by_cases hp : s.pending = 0 <;> simp [hrl, hp]

/-- C9 (amended): `sizeBy(options)` leaves the queue state unchanged and
returns the number of waiting records whose stored priority strictly equals
the `priority` option; other option fields are ignored, and an absent
`priority` matches nothing. -/
theorem sizeBy_nondestructive_counts_priority (p? : Option Int) (s : QState) :
    (sizeByOp p? s).2 = s ∧
    (sizeByOp p? s).1 = s.queue.countP (pqFilterPred p?) ∧
    (p? = none → (sizeByOp p? s).1 = 0) := by
  refine ⟨rfl, ?_, ?_⟩
  · simp [sizeByOp, pqFilter, List.countP_eq_length_filter]
  · rintro rfl
    simp [sizeByOp, pqFilter, pqFilterPred]

/-- C9 (counterexample): on a queue holding one task added with
`{id: 'a'}` (priority defaulted to 0), `sizeBy({id: 'a'})` returns 0,
although exactly one waiting record matches the given options in the
claim's sense — the filter compares only `priority`. -/
theorem sizeBy_ignores_id_option :
    (sizeByOp none c9State).1 = 0 ∧
    c9State.queue.countP (matchesOptsSpec opts9) = 1 := by
  constructor <;> rfl

/-- C7 (counterexample): at the window boundary `intervalEnd = now` (here
both 5, with no timers armed and `lastExecutionTime = 0`) the claim's arms
report "not paused, reset the count", but the code computes
`delay = 0`, arms the resume timeout, reports paused, and leaves
`intervalCount` untouched. -/
theorem fixedWindow_boundary_cex :
    (isIntervalPausedAt cfgFW 5 sFW).2 = true ∧
    (fixedPausedClaim cfgFW 5 sFW).2 = false ∧
    (isIntervalPausedAt cfgFW 5 sFW).1.intervalCount = 3 ∧
    (fixedPausedClaim cfgFW 5 sFW).1.intervalCount = 0 ∧
    (isIntervalPausedAt cfgFW 5 sFW).1.timeoutId = some 0 := by
  refine ⟨rfl, rfl, rfl, rfl, rfl⟩

/-- C7 (amended): in fixed-window mode with no window timer and no resume
timeout armed, `#isIntervalPausedAt(now)` behaves exactly as the claim with
its first arm widened to `interval-end ≥ now`: arm the resume timeout for
`interval-end − now` and report paused; for `interval-end < now` with
`last-execution-time > 0` and `now − last-execution-time < interval`, arm
the remaining spacing and report paused; otherwise reset `interval-count` to
`carryover ? pending : 0` and report not paused. -/
theorem fixedWindow_pausedAt_spec (cfg : Config) (now : Int) (s : QState)
    (hstrict : cfg.strict = false) (hwin : s.intervalId = false)
    (hres : s.timeoutId = none) :
    isIntervalPausedAt cfg now s = fixedPausedAmended cfg now s := by
  unfold isIntervalPausedAt fixedPausedAmended createIntervalTimeout
  rw [hstrict, hwin]
  simp only [Bool.false_eq_true, if_false, hres, Option.isSome_none]
  have hiff : s.intervalEnd - now < 0 ↔ ¬ now ≤ s.intervalEnd := by omega
  by_cases hd : s.intervalEnd - now < 0
  · simp [hd, hiff.mp hd]
  · simp [hd, (by omega : now ≤ s.intervalEnd)]

/-- C7 (witness for the amended theorem): a concrete fixed-window state with
`intervalEnd = 7 > now = 5` on which the code and the amended description
agree. -/
theorem fixedWindow_pausedAt_spec_witness :
    isIntervalPausedAt cfgFW 5 { sFW with intervalEnd := 7 } =
      fixedPausedAmended cfgFW 5 { sFW with intervalEnd := 7 } :=
  fixedWindow_pausedAt_spec cfgFW 5 { sFW with intervalEnd := 7 } rfl rfl rfl

/-- C5 (code bug): after `new PQueue({autoStart: false})` and
`add(fn, {id: 'a'})` a waiting record with id `'a'` exists, yet
`setPriority('a', 1)` throws `ReferenceError`: `PriorityQueue.enqueue`
stores `options.index` (always absent — `PQueue.add` supplies `id`), while
`setPriority` searches `element.index`, so no task added through
`PQueue.add` can ever be found (contradicting the doc example in
`src/source/index.ts` and the `.setPriority()` tests in
`src/test/advanced.ts`). -/
theorem setPriority_never_finds_added_task :
    (∃ e ∈ pausedQueueA.queue, e.run.id = "a") ∧
    (∀ e ∈ pausedQueueA.queue, e.index = none) ∧
    setPriorityOp "a" 1 pausedQueueA = .error () := by
  have hq : pausedQueueA.queue = [⟨0, none, { id := "a" }⟩] := rfl
  refine ⟨⟨⟨0, none, { id := "a" }⟩, ?_, rfl⟩, ?_, rfl⟩
  · rw [hq]
    exact List.mem_singleton.mpr rfl
  · intro e he
    rw [hq] at he
    rw [List.mem_singleton.mp he]

/-- C8 (counterexample): `add(fn, {id: '1'})` followed by a plain `add()`
assigns the auto id `'1'` to the second task — auto-assigned ids are not
distinct from user-provided id strings. -/
theorem autoId_collides_with_user_id :
    assignIds [some "1", none] 1 = ["1", "1"] ∧
    ¬ (assignIds [some "1", none] 1).Pairwise (· ≠ ·) := by
  constructor
  · rfl
  · intro h
    have := List.rel_of_pairwise_cons h (List.mem_singleton.mpr rfl)
    exact this rfl

/-! Injectivity of `Nat.repr` (the `.toString()` of the id counter), via the
canonical rendering `decimalChars`. -/

theorem toDigitsCore_shift (b : Nat) :
    ∀ (f n : Nat) (ds : List Char),
      Nat.toDigitsCore b f n ds = Nat.toDigitsCore b f n [] ++ ds := by
  intro f
  induction f with
  | zero => intro n ds; simp [Nat.toDigitsCore]
  | succ f ih =>
    intro n ds
    simp only [Nat.toDigitsCore]
    by_cases h : n / b = 0
    · simp [h]
    · simp only [h, if_false]
      rw [ih (n / b) (Nat.digitChar (n % b) :: ds), ih (n / b) [Nat.digitChar (n % b)]]
      simp

theorem toDigitsCore_eq_decimalChars :
    ∀ (f n : Nat), n < f → ∀ ds : List Char,
      Nat.toDigitsCore 10 f n ds = decimalChars n ++ ds := by
  intro f
  induction f with
  | zero => intro n hn; omega
  | succ f ih =>
    intro n hn ds
    simp only [Nat.toDigitsCore]
    by_cases h : n / 10 = 0
    · have hn10 : n < 10 := by omega
      unfold decimalChars
      simp [h, hn10, Nat.mod_eq_of_lt hn10]
    · have hge : 10 ≤ n := by
        by_contra hcon
        exact h (Nat.div_eq_of_lt (by omega))
      have hlt : n / 10 < f := by
        have := Nat.div_lt_self (show 0 < n by omega) (show 1 < 10 by omega)
        omega
      simp only [h, if_false]
      rw [ih (n / 10) hlt]
      conv_rhs => unfold decimalChars
      simp [show ¬ n < 10 by omega]

theorem repr_eq_decimalChars (n : Nat) : Nat.repr n = (decimalChars n).asString := by
  unfold Nat.repr Nat.toDigits
  rw [toDigitsCore_eq_decimalChars (n + 1) n (Nat.lt_succ_self n)]
  simp

theorem digitChar_inj_lt : ∀ a < 10, ∀ b < 10, Nat.digitChar a = Nat.digitChar b → a = b := by
  decide

theorem decimalChars_ne_nil (n : Nat) : decimalChars n ≠ [] := by
  unfold decimalChars
  split <;> simp

theorem decimalChars_inj : ∀ m n : Nat, decimalChars m = decimalChars n → m = n := by
  intro m
  induction m using Nat.strong_induction_on with
  | _ m ih =>
    intro n h
    by_cases hm : m < 10 <;> by_cases hn : n < 10
    · apply digitChar_inj_lt m hm n hn
      unfold decimalChars at h
      simp [hm, hn] at h
      exact h
    · exfalso
      unfold decimalChars at h
      simp only [hm, hn, dif_pos, dif_neg, not_false_iff] at h
      obtain ⟨x, xs, hx⟩ := List.exists_cons_of_ne_nil (decimalChars_ne_nil (n / 10))
      rw [hx] at h
      simp at h
    · exfalso
      unfold decimalChars at h
      simp only [hm, hn, dif_pos, dif_neg, not_false_iff] at h
      obtain ⟨x, xs, hx⟩ := List.exists_cons_of_ne_nil (decimalChars_ne_nil (m / 10))
      rw [hx] at h
      simp at h
    · unfold decimalChars at h
      simp only [hm, hn, dif_neg, not_false_iff] at h
      obtain ⟨h1, h2⟩ := List.append_inj' h (by simp)
      have e1 : m / 10 = n / 10 :=
        ih (m / 10) (Nat.div_lt_self (by omega) (by omega)) (n / 10) h1
      have e2 : m % 10 = n % 10 :=
        digitChar_inj_lt (m % 10) (Nat.mod_lt _ (by omega)) (n % 10)
          (Nat.mod_lt _ (by omega)) (by simpa using h2)
      omega

theorem natRepr_inj {m n : Nat} (h : Nat.repr m = Nat.repr n) : m = n := by
  apply decimalChars_inj
  rw [repr_eq_decimalChars, repr_eq_decimalChars] at h
  simpa [List.asString] using congrArg String.data h

theorem assignIds_length (l : List (Option String)) (c : Nat) :
    (assignIds l c).length = l.length := by
  induction l generalizing c with
  | nil => rfl
  | cons o rest ih => cases o <;> simp [assignIds, assignId, ih]

theorem assignIds_user (l : List (Option String)) (c : Nat) :
    ∀ (i : Nat) (u : String), l.getD i none = some u → (assignIds l c).getD i "" = u := by
  induction l generalizing c with
  | nil => intro i u h; simp at h
  | cons o rest ih =>
    intro i u h
    cases i with
    | zero =>
      cases o with
      | none => simp at h
      | some v => simp at h; simp [assignIds, assignId, h]
    | succ i =>
      cases o <;> simpa [assignIds, assignId] using ih _ i u (by simpa using h)

theorem assignIds_auto (l : List (Option String)) (c : Nat) :
    ∀ i : Nat, i < l.length → l.getD i none = none →
      (assignIds l c).getD i "" = Nat.repr (c + (l.take i).countP Option.isNone) := by
  induction l generalizing c with
  | nil => intro i h; simp at h
  | cons o rest ih =>
    intro i hi h
    cases i with
    | zero =>
      cases o with
      | some v => simp at h
      | none => simp [assignIds, assignId]
    | succ i =>
      have hi' : i < rest.length := by simpa using hi
      have h' : rest.getD i none = none := by simpa using h
      cases o with
      | some v =>
        have := ih c i hi' h'
        simpa [assignIds, assignId, Nat.add_assoc] using this
      | none =>
        have hrec := ih (c + 1) i hi' h'
        simp only [assignIds, assignId, List.getD_cons_succ]
        rw [hrec]
        have hcnt : ((none :: rest).take (i + 1)).countP (Option.isNone (α := String))
            = (rest.take i).countP Option.isNone + 1 := by
          simp [List.take_succ_cons, List.countP_cons]
        rw [hcnt]
        congr 1
        omega

theorem countP_isNone_take_lt (l : List (Option String)) :
    ∀ i j : Nat, i < j → j ≤ l.length → l.getD i none = none →
      (l.take i).countP Option.isNone < (l.take j).countP Option.isNone := by
  induction l with
  | nil => intro i j _ hj; simp at hj; omega
  | cons o rest ih =>
    intro i j hij hj h
    cases i with
    | zero =>
      cases o with
      | some v => simp at h
      | none =>
        cases j with
        | zero => omega
        | succ j =>
          have hcnt : ((none :: rest).take (j + 1)).countP (Option.isNone (α := String))
              = (rest.take j).countP Option.isNone + 1 := by
            simp [List.take_succ_cons, List.countP_cons]
          rw [List.take_zero, List.countP_nil, hcnt]
          omega
    | succ i =>
      cases j with
      | zero => omega
      | succ j =>
        have := ih i j (by omega) (by simpa using hj) (by simpa using h)
        simp only [List.take_succ_cons, List.countP_cons]
        omega

/-- C8 (amended): a user-supplied id is used verbatim; an omitted id receives
the decimal rendering of the per-queue counter, which increments on each
auto-assignment, so auto-assigned ids correspond to strictly increasing
counter values and are pairwise distinct among themselves.  (They are not
distinct from the user-provided id namespace — see the counterexample.) -/
theorem addId_assignment (l : List (Option String)) (c : Nat) :
    (assignIds l c).length = l.length ∧
    (∀ (i : Nat) (u : String), l.getD i none = some u → (assignIds l c).getD i "" = u) ∧
    (∀ i : Nat, i < l.length → l.getD i none = none →
      (assignIds l c).getD i "" = Nat.repr (c + (l.take i).countP Option.isNone)) ∧
    (∀ i j : Nat, i < j → j < l.length → l.getD i none = none → l.getD j none = none →
      (assignIds l c).getD i "" ≠ (assignIds l c).getD j "") := by
  refine ⟨assignIds_length l c, assignIds_user l c, assignIds_auto l c, ?_⟩
  intro i j hij hj hi' hj' heq
  rw [assignIds_auto l c i (by omega) hi', assignIds_auto l c j hj hj'] at heq
  have := natRepr_inj heq
  have := countP_isNone_take_lt l i j hij (by omega) hi'
  omega

/-- C4: when the scheduler admits a task whose abort signal is already
aborted, the user's function is never invoked (the outcome is the pre-start
abort, not `started`, and no execution is recorded), the rate-limit slot
consumed at admission is exactly rolled back (`intervalCount` and the strict
tick buffer return to their pre-admission values — in particular the count
never drops below 0 and the freshly appended tick is the one removed), the
task is unregistered from `#runningTasks`, and the submitter's promise is
rejected with the signal's reason.  The hypotheses are the structural
invariants that the start index never exceeds the buffer length and that
running-task symbols are allocated below the symbol counter. -/
theorem preStartAbort_rolls_back (cfg : Config) (now : Int) (body : TaskBody) (s : QState)
    (hab : body.aborted = true)
    (hstart : s.strictTicksStartIndex ≤ s.strictTicks.length)
    (hsym : ∀ kv ∈ s.runningTasks, kv.1 < s.symCounter) :
    (admitJob cfg now body s).2 = JobStart.abortedWith body.reason ∧
    (admitJob cfg now body s).1.strictTicks = s.strictTicks ∧
    (admitJob cfg now body s).1.strictTicksStartIndex = s.strictTicksStartIndex ∧
    (admitJob cfg now body s).1.intervalCount = s.intervalCount ∧
    (admitJob cfg now body s).1.runningTasks = s.runningTasks ∧
    (admitJob cfg now body s).1.ghostExec = s.ghostExec ∧
    (admitJob cfg now body s).1.lastExecutionTime = s.lastExecutionTime := by
  have hfilter : ∀ (rt : List (Nat × RunRec)) (sym : Nat) (r : RunRec),
      (∀ kv ∈ rt, kv.1 < sym) → (rt ++ [(sym, r)]).filter (fun kv => kv.1 ≠ sym) = rt := by
    intro rt sym r hlt
    rw [List.filter_append]
    have h1 : rt.filter (fun kv => kv.1 ≠ sym) = rt :=
      List.filter_eq_self.mpr fun kv hkv => by
        simpa using Nat.ne_of_lt (hlt kv hkv)
    have h2 : ([(sym, r)] : List (Nat × RunRec)).filter (fun kv => kv.1 ≠ sym) = [] := by
      simp
    rw [h1, h2, List.append_nil]
  unfold admitJob runJobSync rollbackIntervalConsumption rollbackIntervalSlot consumeIntervalSlot
  by_cases hig : cfg.ignored <;> by_cases hst : cfg.strict <;>
    simp only [hig, hst, hab, if_true, if_false, Bool.false_eq_true, ite_true, ite_false]
  · -- ignored, strict: no consumption, rollback skipped
    simp [hfilter _ _ _ hsym]
    intro a b hmem
    exact Nat.ne_of_lt (hsym (a, b) hmem)
  · -- ignored, fixed window
    simp [hfilter _ _ _ hsym]
    intro a b hmem
    exact Nat.ne_of_lt (hsym (a, b) hmem)
  · -- not ignored, strict: push `now` then pop it
    have hlt : s.strictTicksStartIndex < (s.strictTicks ++ [now]).length := by
      simp; omega
    simp only [hlt, if_true, List.dropLast_concat]
    simp [hfilter _ _ _ hsym]
    intro a b hmem
    exact Nat.ne_of_lt (hsym (a, b) hmem)
  · -- not ignored, fixed window: increment then decrement
    simp [hfilter _ _ _ hsym]
    intro a b hmem
    exact Nat.ne_of_lt (hsym (a, b) hmem)

/-- C4 (witness): a concrete aborted task admitted into a strict-mode state
with one old tick: the outcome is the rejection with the signal's reason and
all rate-limit state is restored. -/
theorem preStartAbort_rolls_back_witness :
    (admitJob ⟨true, some 2, 1000, false⟩ 5
        { id := "w", aborted := true, reason := "stop" }
        { initState (some 1) true none with strictTicks := [3] }).2 =
      JobStart.abortedWith "stop" ∧
    (admitJob ⟨true, some 2, 1000, false⟩ 5
        { id := "w", aborted := true, reason := "stop" }
        { initState (some 1) true none with strictTicks := [3] }).1.strictTicks = [3] :=
  ⟨(preStartAbort_rolls_back ⟨true, some 2, 1000, false⟩ 5
      { id := "w", aborted := true, reason := "stop" }
      { initState (some 1) true none with strictTicks := [3] } rfl
      (by decide) (by simp [initState])).1,
   (preStartAbort_rolls_back ⟨true, some 2, 1000, false⟩ 5
      { id := "w", aborted := true, reason := "stop" }
      { initState (some 1) true none with strictTicks := [3] } rfl
      (by decide) (by simp [initState])).2.1⟩

/-! ### Scheduling-count lemmas: how each operation treats `pending` and
`concurrency` (towards claim C1) -/

theorem natLtCap_succ_le {n : Nat} {c : Option Nat} (h : natLtCap n c = true) :
    natLeCap (n + 1) c = true := by
  cases c <;> simp [natLtCap, natLeCap] at * <;> omega

theorem natLeCap_of_le {m n : Nat} {c : Option Nat} (hmn : m ≤ n)
    (h : natLeCap n c = true) : natLeCap m c = true := by
  cases c <;> simp [natLeCap] at * <;> omega

theorem cleanup_sched (cfg : Config) (now : Int) (s : QState) :
    (cleanupStrictTicks cfg now s).pending = s.pending ∧
    (cleanupStrictTicks cfg now s).concurrency = s.concurrency := by
  unfold cleanupStrictTicks
  dsimp only
  split <;> exact ⟨rfl, rfl⟩

theorem createTimeout_sched (d : Int) (s : QState) :
    (createIntervalTimeout d s).pending = s.pending ∧
    (createIntervalTimeout d s).concurrency = s.concurrency := by
  unfold createIntervalTimeout
  split <;> exact ⟨rfl, rfl⟩

theorem consume_sched (cfg : Config) (now : Int) (s : QState) :
    (consumeIntervalSlot cfg now s).pending = s.pending ∧
    (consumeIntervalSlot cfg now s).concurrency = s.concurrency := by
  unfold consumeIntervalSlot
  split <;> exact ⟨rfl, rfl⟩

theorem rollback_sched (cfg : Config) (s : QState) :
    (rollbackIntervalConsumption cfg s).pending = s.pending ∧
    (rollbackIntervalConsumption cfg s).concurrency = s.concurrency := by
  unfold rollbackIntervalConsumption rollbackIntervalSlot
  split
  · exact ⟨rfl, rfl⟩
  · split
    · split <;> exact ⟨rfl, rfl⟩
    · split <;> exact ⟨rfl, rfl⟩

theorem admitJob_sched (cfg : Config) (now : Int) (body : TaskBody) (s : QState) :
    (admitJob cfg now body s).1.pending = s.pending + 1 ∧
    (admitJob cfg now body s).1.concurrency = s.concurrency := by
  unfold admitJob runJobSync
  by_cases hig : cfg.ignored <;> by_cases hb : body.aborted <;>
    simp only [hig, hb, if_true, if_false, Bool.false_eq_true, ite_true, ite_false]
  · exact ⟨(rollback_sched cfg _).1, (rollback_sched cfg _).2⟩
  · constructor <;> first | rfl | trivial
  · exact ⟨(rollback_sched cfg _).1.trans (congrArg (fun n => n + 1) (consume_sched cfg now s).1),
      (rollback_sched cfg _).2.trans (consume_sched cfg now s).2⟩
  · exact ⟨congrArg (fun n => n + 1) (consume_sched cfg now s).1, (consume_sched cfg now s).2⟩

theorem pausedAt_sched (cfg : Config) (now : Int) (s : QState) :
    (isIntervalPausedAt cfg now s).1.pending = s.pending ∧
    (isIntervalPausedAt cfg now s).1.concurrency = s.concurrency := by
  by_cases hst : cfg.strict
  · simp only [isIntervalPausedAt, hst, if_true]
    split
    · exact ⟨(createTimeout_sched _ _).1.trans (cleanup_sched cfg now s).1,
        (createTimeout_sched _ _).2.trans (cleanup_sched cfg now s).2⟩
    · exact cleanup_sched cfg now s
  · simp only [isIntervalPausedAt, hst, Bool.false_eq_true, if_false]
    split
    · exact ⟨rfl, rfl⟩
    · split
      · split
        · exact createTimeout_sched _ _
        · exact ⟨rfl, rfl⟩
      · exact createTimeout_sched _ _

theorem initInterval_sched (cfg : Config) (now : Int) (s : QState) :
    (initIntervalIfNeeded cfg now s).pending = s.pending ∧
    (initIntervalIfNeeded cfg now s).concurrency = s.concurrency := by
  unfold initIntervalIfNeeded
  split <;> exact ⟨rfl, rfl⟩

theorem updateRate_sched (cfg : Config) (now : Int) (s : QState) :
    (updateRateLimitState cfg now s).pending = s.pending ∧
    (updateRateLimitState cfg now s).concurrency = s.concurrency := by
  unfold updateRateLimitState
  split
  · split <;> exact ⟨rfl, rfl⟩
  · dsimp only
    split
    · exact ⟨(cleanup_sched cfg now s).1, (cleanup_sched cfg now s).2⟩
    · exact ⟨rfl, rfl⟩

theorem tryToStart_conc (cfg : Config) (now : Int) (s : QState) :
    (tryToStartAnother cfg now s).1.concurrency = s.concurrency := by
  unfold tryToStartAnother
  dsimp only
  split
  · split
    · split
      · exact (cleanup_sched cfg now _).2
      · rfl
    · rfl
  · split
    · rfl
    · split
      · split
        · exact (pausedAt_sched cfg now s).2
        · split
          · exact (initInterval_sched cfg now _).2.trans
              ((admitJob_sched cfg now _ _).2.trans (pausedAt_sched cfg now s).2)
          · exact (admitJob_sched cfg now _ _).2.trans (pausedAt_sched cfg now s).2
      · exact (pausedAt_sched cfg now s).2

theorem tryToStart_pending_le (cfg : Config) (now : Int) (s : QState)
    (h : natLeCap s.pending s.concurrency = true) :
    natLeCap (tryToStartAnother cfg now s).1.pending
      (tryToStartAnother cfg now s).1.concurrency = true := by
  rw [tryToStart_conc cfg now s]
  unfold tryToStartAnother
  dsimp only
  split
  · split
    · split
      · rw [(cleanup_sched cfg now _).1]
        exact h
      · exact h
    · exact h
  · split
    · exact h
    · split
      · rename_i hgate
        rw [Bool.and_eq_true] at hgate
        have hlt : natLtCap s.pending s.concurrency = true := by
          have hconc := hgate.2
          unfold doesConcurrentAllowAnother at hconc
          rwa [(pausedAt_sched cfg now s).1, (pausedAt_sched cfg now s).2] at hconc
        split
        · rw [(pausedAt_sched cfg now s).1]
          exact h
        · split
          · rw [(initInterval_sched cfg now _).1, (admitJob_sched cfg now _ _).1]
            show natLeCap ((isIntervalPausedAt cfg now s).1.pending + 1) s.concurrency = true
            rw [(pausedAt_sched cfg now s).1]
            exact natLtCap_succ_le hlt
          · rw [(admitJob_sched cfg now _ _).1]
            show natLeCap ((isIntervalPausedAt cfg now s).1.pending + 1) s.concurrency = true
            rw [(pausedAt_sched cfg now s).1]
            exact natLtCap_succ_le hlt
      · rw [(pausedAt_sched cfg now s).1]
        exact h


theorem processQueueAux_conc (cfg : Config) (now : Int) :
    ∀ (fuel : Nat) (s : QState),
      (processQueueAux cfg now fuel s).concurrency = s.concurrency := by
  intro fuel
  induction fuel with
  | zero => intro s; rfl
  | succ fuel ih =>
    intro s
    unfold processQueueAux
    dsimp only
    split
    · rw [ih]
      exact tryToStart_conc cfg now s
    · exact tryToStart_conc cfg now s

theorem processQueueAux_pending_le (cfg : Config) (now : Int) :
    ∀ (fuel : Nat) (s : QState), natLeCap s.pending s.concurrency = true →
      natLeCap (processQueueAux cfg now fuel s).pending
        (processQueueAux cfg now fuel s).concurrency = true := by
  intro fuel
  induction fuel with
  | zero => intro s h; exact h
  | succ fuel ih =>
    intro s h
    unfold processQueueAux
    dsimp only
    split
    · exact ih _ (tryToStart_pending_le cfg now s h)
    · exact tryToStart_pending_le cfg now s h

theorem processQueue_conc (cfg : Config) (now : Int) (s : QState) :
    (processQueue cfg now s).concurrency = s.concurrency :=
  processQueueAux_conc cfg now _ s

theorem processQueue_pending_le (cfg : Config) (now : Int) (s : QState)
    (h : natLeCap s.pending s.concurrency = true) :
    natLeCap (processQueue cfg now s).pending (processQueue cfg now s).concurrency = true :=
  processQueueAux_pending_le cfg now _ s h

theorem addOp_conc (cfg : Config) (now : Int) (o : AddOpts) (s : QState) :
    (addOp cfg now o s).concurrency = s.concurrency :=
  tryToStart_conc cfg now _

theorem addOp_pending_le (cfg : Config) (now : Int) (o : AddOpts) (s : QState)
    (h : natLeCap s.pending s.concurrency = true) :
    natLeCap (addOp cfg now o s).pending (addOp cfg now o s).concurrency = true :=
  tryToStart_pending_le cfg now _ h

theorem nextOp_conc (cfg : Config) (now : Int) (s : QState) :
    (nextOp cfg now s).concurrency = s.concurrency :=
  tryToStart_conc cfg now _

theorem nextOp_pending_le (cfg : Config) (now : Int) (s : QState)
    (h : natLeCap s.pending s.concurrency = true) :
    natLeCap (nextOp cfg now s).pending (nextOp cfg now s).concurrency = true :=
  tryToStart_pending_le cfg now _ (natLeCap_of_le (Nat.sub_le s.pending 1) h)

theorem startOp_conc (cfg : Config) (now : Int) (s : QState) :
    (startOp cfg now s).concurrency = s.concurrency := by
  unfold startOp
  split
  · rfl
  · exact processQueue_conc cfg now _

theorem startOp_pending_le (cfg : Config) (now : Int) (s : QState)
    (h : natLeCap s.pending s.concurrency = true) :
    natLeCap (startOp cfg now s).pending (startOp cfg now s).concurrency = true := by
  unfold startOp
  split
  · exact h
  · exact processQueue_pending_le cfg now _ h

theorem clearOp_sched (cfg : Config) (now : Int) (s : QState) :
    (clearOp cfg now s).pending = s.pending ∧
    (clearOp cfg now s).concurrency = s.concurrency := by
  unfold clearOp
  dsimp only
  split
  · exact ⟨(updateRate_sched cfg now _).1, (updateRate_sched cfg now _).2⟩
  · exact ⟨(updateRate_sched cfg now _).1, (updateRate_sched cfg now _).2⟩

theorem setConcOp_conc (cfg : Config) (now : Int) (c : Option Nat) (s : QState) :
    (setConcOp cfg now c s).concurrency = c :=
  processQueue_conc cfg now _

theorem setConcOp_pending_le (cfg : Config) (now : Int) (c : Option Nat) (s : QState)
    (h : natLeCap s.pending c = true) :
    natLeCap (setConcOp cfg now c s).pending (setConcOp cfg now c s).concurrency = true :=
  processQueue_pending_le cfg now _ h

theorem setPriorityOp_fields {id : String} {p : Int} {s s' : QState}
    (h : setPriorityOp id p s = .ok s') :
    s'.pending = s.pending ∧ s'.concurrency = s.concurrency := by
  unfold setPriorityOp at h
  split at h
  · exact absurd h (by simp)
  · rename_i q hq
    injection h with h
    subst h
    exact ⟨rfl, rfl⟩

theorem onIntervalOp_conc (cfg : Config) (now : Int) (s : QState) :
    (onIntervalOp cfg now s).concurrency = s.concurrency := by
  unfold onIntervalOp
  dsimp only
  split
  · split
    · exact processQueue_conc cfg now _
    · exact processQueue_conc cfg now _
  · exact processQueue_conc cfg now _

theorem onIntervalOp_pending_le (cfg : Config) (now : Int) (s : QState)
    (h : natLeCap s.pending s.concurrency = true) :
    natLeCap (onIntervalOp cfg now s).pending (onIntervalOp cfg now s).concurrency = true := by
  unfold onIntervalOp
  dsimp only
  split
  · split
    · exact processQueue_pending_le cfg now _ h
    · exact processQueue_pending_le cfg now _ h
  · exact processQueue_pending_le cfg now _ h

theorem onResumeOp_conc (cfg : Config) (now : Int) (s : QState) :
    (onResumeOp cfg now s).concurrency = s.concurrency := by
  unfold onResumeOp
  exact (initInterval_sched cfg now _).2.trans (onIntervalOp_conc cfg now _)

theorem onResumeOp_pending_le (cfg : Config) (now : Int) (s : QState)
    (h : natLeCap s.pending s.concurrency = true) :
    natLeCap (onResumeOp cfg now s).pending (onResumeOp cfg now s).concurrency = true := by
  unfold onResumeOp
  rw [(initInterval_sched cfg now _).1, (initInterval_sched cfg now _).2]
  exact onIntervalOp_pending_le cfg now _ h

theorem updateRate_pending_le (cfg : Config) (now : Int) (s : QState)
    (h : natLeCap s.pending s.concurrency = true) :
    natLeCap (updateRateLimitState cfg now s).pending
      (updateRateLimitState cfg now s).concurrency = true := by
  rw [(updateRate_sched cfg now s).1, (updateRate_sched cfg now s).2]
  exact h

/-- Every step preserves `pending ≤ concurrency`, stated with the invariant
measured against the *post*-step concurrency (for a concurrency change, the
hypothesis is that the new limit still accommodates the tasks already
running; for every other step the concurrency is unchanged and the
hypothesis is the invariant itself). -/
theorem step_pending_le {cfg : Config} {now : Int} {s s' : QState}
    (hs : Step cfg now s s')
    (hinv : natLeCap s.pending s'.concurrency = true) :
    natLeCap s'.pending s'.concurrency = true := by
  cases hs with
  | add o =>
    rw [addOp_conc] at hinv
    exact addOp_pending_le cfg now o s hinv
  | complete sym h => exact hinv
  | nextTick h =>
    rw [nextOp_conc] at hinv
    exact nextOp_pending_le cfg now s hinv
  | start =>
    rw [startOp_conc] at hinv
    exact startOp_pending_le cfg now s hinv
  | pause => exact hinv
  | clear =>
    rw [(clearOp_sched cfg now s).2] at hinv
    rw [(clearOp_sched cfg now s).1, (clearOp_sched cfg now s).2]
    exact hinv
  | setConc c h =>
    rw [setConcOp_conc] at hinv
    exact setConcOp_pending_le cfg now c s hinv
  | setPrio id p s' h =>
    rw [(setPriorityOp_fields h).2] at hinv
    rw [(setPriorityOp_fields h).1, (setPriorityOp_fields h).2]
    exact hinv
  | windowFire h =>
    rw [onIntervalOp_conc] at hinv
    exact onIntervalOp_pending_le cfg now s hinv
  | resumeFire h =>
    rw [onResumeOp_conc] at hinv
    exact onResumeOp_pending_le cfg now s hinv
  | flush =>
    rw [(updateRate_sched cfg now s).2] at hinv
    exact updateRate_pending_le cfg now s hinv

/-- C1 (amended): in every state reachable without ever dropping the
concurrency limit below the tasks already running, `pending ≤ concurrency`
holds — in particular it holds across arbitrary interleavings of
`add`/`next`/`start`/`pause`/`clear`/timer fires, since admission requires
`pending < concurrency` and only ever raises `pending` by one. -/
theorem pending_le_concurrency {cfg : Config} {t : Int} {s : QState}
    (h : ReachNC cfg t s) : natLeCap s.pending s.concurrency = true := by
  induction h with
  | init t₀ conc auto tdef h₀ hc hv => cases conc <;> simp [natLeCap, initState]
  | step hr hle hs hconc ih =>
    cases hconc with
    | inl he =>
      apply step_pending_le hs
      rw [he]
      exact ih
    | inr hp => exact step_pending_le hs hp

/-- C1 (witness for the amended theorem): after one admitted `add` on a
freshly constructed queue with `concurrency = 2`, `pending ≤ concurrency`. -/
theorem pending_le_concurrency_witness :
    natLeCap (addOp cfgPlain 0 oPlain (initState (some 2) true none)).pending
      (addOp cfgPlain 0 oPlain (initState (some 2) true none)).concurrency = true :=
  pending_le_concurrency
    (ReachNC.step
      (ReachNC.init 0 (some 2) true none (le_refl 0) (by decide) (by decide))
      (le_refl 0) (Step.add oPlain) (Or.inl rfl))

/-- C1 (counterexample): the claim fails for the concurrency setter.  With
`new PQueue({concurrency: 2})`, two `add`s admit two tasks (`pending = 2`);
`queue.concurrency = 1` is accepted (it only validates `>= 1`) and does not
interrupt the running tasks, leaving the reachable state with
`pending = 2 > 1 = concurrency`. -/
theorem concurrency_decrease_breaks_bound :
    Reach cfgPlain 0 c1State ∧ c1State.pending = 2 ∧ c1State.concurrency = some 1 ∧
    natLeCap c1State.pending c1State.concurrency = false := by
  refine ⟨?_, rfl, rfl, rfl⟩
  have h0 : Reach cfgPlain 0 (initState (some 2) true none) :=
    Reach.init 0 (some 2) true none (le_refl 0) (by decide) (by decide)
  have h1 := Reach.step h0 (le_refl 0) (Step.add oPlain)
  have h2 := Reach.step h1 (le_refl 0) (Step.add oPlain)
  exact Reach.step h2 (le_refl 0) (Step.setConc (some 1) (by decide))

/-- C10: the `runningTasks` getter allocates a fresh array of fresh copies:
every returned address (the array's and each element's) lies beyond the
pre-existing heap, hence aliases nothing internal; allocation leaves the
old heap intact; each fresh element holds exactly the record the internal
registry holds; and writing to any fresh address (mutating the returned
array or any of its elements) leaves every pre-existing object — the
internal running-task registry and all other queue state — unchanged. -/
theorem runningTasks_getter_fresh_copies (internal : List Nat) (h : List HeapObj)
    (hv : ∀ a ∈ internal, a < h.length) :
    h.length ≤ (runningTasksGetter internal h).1 ∧
    (runningTasksGetter internal h).1 ∉ internal ∧
    (∀ a ∈ (runningTasksGetter internal h).2.1, h.length ≤ a ∧ a ∉ internal) ∧
    (runningTasksGetter internal h).2.2.take h.length = h ∧
    heapGet (runningTasksGetter internal h).2.2 (runningTasksGetter internal h).1 =
      some (HeapObj.taskArr (runningTasksGetter internal h).2.1) ∧
    (∀ i : Fin internal.length,
      heapGet (runningTasksGetter internal h).2.2 (h.length + i.val) =
        heapGet h (internal.get i)) ∧
    (∀ (a : Nat) (v : HeapObj), h.length ≤ a →
      ∀ b ∈ internal,
        heapGet (heapSet (runningTasksGetter internal h).2.2 a v) b = heapGet h b) := by
  have hcop : (internal.map fun a => (heapGet h a).getD default).length = internal.length :=
    List.length_map _ _
  refine ⟨Nat.le_add_right _ _, ?_, ?_, ?_, ?_, ?_, ?_⟩
  · intro hmem
    have h1 := hv _ hmem
    have h2 : (runningTasksGetter internal h).1 = h.length + internal.length := rfl
    omega
  · intro a ha
    have := List.mem_range'_1.mp ha
    exact ⟨this.1, fun hmem => absurd (hv _ hmem) (by omega)⟩
  · show (h ++ _ ++ _).take h.length = h
    rw [List.append_assoc]
    exact List.take_left h _
  · have hl : (h ++ internal.map fun a => (heapGet h a).getD default).length =
        h.length + internal.length := by
      simp [hcop]
    show ((h ++ _) ++ _).get? (h.length + internal.length) = _
    rw [← hl]
    exact List.get?_concat_length _ _
  · intro i
    have hlt := hv (internal.get i) (List.get_mem internal i.val i.isLt)
    show ((h ++ _) ++ _).get? (h.length + i.val) = _
    rw [List.append_assoc, List.get?_append_right (Nat.le_add_right _ _),
      Nat.add_sub_cancel_left,
      List.get?_append (by rw [hcop]; exact i.isLt),
      List.get?_map, List.get?_eq_get i.isLt]
    show some ((heapGet h (internal.get i)).getD default) = heapGet h (internal.get i)
    rw [show heapGet h (internal.get i) = some (h.get ⟨internal.get i, hlt⟩) from
      List.get?_eq_get hlt]
    rfl
  · intro a v hla b hb
    have hne : a ≠ b := by
      have := hv b hb
      omega
    show (List.set _ a v).get? b = h.get? b
    rw [List.get?_set_ne v _ hne]
    show (h ++ _ ++ _).get? b = _
    rw [List.append_assoc, List.get?_append (hv b hb)]

/-- C10 (witness): a heap holding one running-task record at address 0; the
getter's array address is fresh and the allocation preserves the old heap. -/
theorem runningTasks_getter_fresh_copies_witness :
    (runningTasksGetter [0] [HeapObj.taskRec ⟨"t", 0, 0, none⟩]).1 ∉ ([0] : List Nat) ∧
    (runningTasksGetter [0] [HeapObj.taskRec ⟨"t", 0, 0, none⟩]).2.2.take 1 =
      [HeapObj.taskRec ⟨"t", 0, 0, none⟩] :=
  ⟨(runningTasks_getter_fresh_copies [0] [HeapObj.taskRec ⟨"t", 0, 0, none⟩]
      (by decide)).2.1,
   (runningTasks_getter_fresh_copies [0] [HeapObj.taskRec ⟨"t", 0, 0, none⟩]
      (by decide)).2.2.2.1⟩

/-! ### The priority queue keeps a stable priority-descending order (C2) -/

theorem sortedD_getD_le (ps : List Int) (hs : ps.Pairwise (fun a b => b ≤ a))
    {i j : Nat} (hij : i ≤ j) (hj : j < ps.length) : ps.getD j 0 ≤ ps.getD i 0 := by
  rcases Nat.eq_or_lt_of_le hij with rfl | hlt
  · exact le_refl _
  · rw [List.pairwise_iff_get] at hs
    have hi : i < ps.length := lt_of_le_of_lt hij hj
    have := hs ⟨i, hi⟩ ⟨j, hj⟩ hlt
    rwa [List.getD_eq_get ps 0 hj, List.getD_eq_get ps 0 hi]

theorem lbLoop_spec (ps : List Int) (hs : ps.Pairwise (fun a b => b ≤ a)) (p : Int) :
    ∀ (count first : Nat), first + count ≤ ps.length →
      (∀ i, i < first → p ≤ ps.getD i 0) →
      (∀ i, first + count ≤ i → i < ps.length → ps.getD i 0 < p) →
      (∀ i, i < lbLoop ps p first count → p ≤ ps.getD i 0) ∧
      (∀ i, lbLoop ps p first count ≤ i → i < ps.length → ps.getD i 0 < p) ∧
      lbLoop ps p first count ≤ ps.length := by
  intro count
  induction count using Nat.strong_induction_on with
  | _ count ih =>
    intro first hlen hlow hhigh
    by_cases hc : count = 0
    · rw [lbLoop, dif_pos hc]
      exact ⟨hlow, fun i hi => hhigh i (by omega), by omega⟩
    · have hstep : count / 2 < count := Nat.div_lt_self (by omega) (by omega)
      rw [lbLoop, dif_neg hc]
      dsimp only
      by_cases hp : p ≤ ps.getD (first + count / 2) 0
      · rw [if_pos hp]
        apply ih (count - count / 2 - 1) (by omega) (first + count / 2 + 1) (by omega)
        · intro i hi
          by_cases hif : i < first
          · exact hlow i hif
          · have hfs : first + count / 2 < ps.length := by omega
            exact le_trans hp (sortedD_getD_le ps hs (by omega) hfs)
        · intro i hi hilen
          exact hhigh i (by omega) hilen
      · rw [if_neg hp]
        apply ih (count / 2) hstep first (by omega) hlow
        intro i hi hilen
        have hfs : first + count / 2 < ps.length := by omega
        have := sortedD_getD_le ps hs (show first + count / 2 ≤ i by omega) hilen
        omega

theorem length_takeWhile_pred (p : Int) :
    ∀ (ps : List Int) (r : Nat), r ≤ ps.length →
      (∀ i, i < r → p ≤ ps.getD i 0) →
      (∀ i, r ≤ i → i < ps.length → ps.getD i 0 < p) →
      (ps.takeWhile (fun x => decide (p ≤ x))).length = r := by
  intro ps
  induction ps with
  | nil =>
    intro r h1 _ _
    simp at h1
    simp [h1]
  | cons a t ih =>
    intro r hr hlow hhigh
    cases r with
    | zero =>
      have ha := hhigh 0 (le_refl 0) (by simp)
      rw [List.getD_cons_zero] at ha
      simp [List.takeWhile_cons, show ¬ p ≤ a by omega]
    | succ r' =>
      have h0 := hlow 0 (Nat.succ_pos r')
      rw [List.getD_cons_zero] at h0
      rw [List.takeWhile_cons, if_pos (by simpa using h0)]
      simp only [List.length_cons]
      rw [ih r' (by simpa using hr)
        (fun i hi => by simpa using hlow (i + 1) (by omega))
        (fun i hi hil => by
          have := hhigh (i + 1) (by omega) (by simpa using hil)
          simpa using this)]

theorem lowerBound_eq_length_takeWhile {α : Type} (q : List (PQElem α)) (p : Int)
    (hs : (q.map (·.priority)).Pairwise (fun a b => b ≤ a)) :
    lowerBound q p = (q.takeWhile (fun e => decide (p ≤ e.priority))).length := by
  unfold lowerBound
  obtain ⟨h1, h2, h3⟩ := lbLoop_spec (q.map (·.priority)) hs p q.length 0
    (by simp) (fun i hi => absurd hi (Nat.not_lt_zero i)) (fun i hi hil => by simp at hil; omega)
  have hlen := length_takeWhile_pred p (q.map (·.priority))
    (lbLoop (q.map (·.priority)) p 0 q.length) (by simpa using h3) h1 h2
  rw [← hlen, List.takeWhile_map]
  simp only [List.length_map]
  rfl

theorem insertIdx_at_append {α : Type} (x : α) :
    ∀ (l₁ l₂ : List α), List.insertIdx l₁.length x (l₁ ++ l₂) = l₁ ++ x :: l₂ := by
  intro l₁
  induction l₁ with
  | nil => intro l₂; rfl
  | cons a t ih =>
    intro l₂
    simp only [List.length_cons, List.cons_append, List.insertIdx_succ_cons, ih]

theorem all_ge_of_last {α : Type} :
    ∀ (q : List (PQElem α)), q.Pairwise (fun a b => b.priority ≤ a.priority) →
      ∀ (last : PQElem α), q.getLast? = some last → ∀ (p : Int), p ≤ last.priority →
        ∀ e ∈ q, p ≤ e.priority := by
  intro q
  induction q with
  | nil => intro _ last hl; simp at hl
  | cons a t ih =>
    intro hs last hl p hp e he
    obtain ⟨hrel, hst⟩ := List.pairwise_cons.mp hs
    cases ht : t with
    | nil =>
      subst ht
      rw [List.getLast?_singleton] at hl
      injection hl with hl
      subst hl
      rcases List.mem_singleton.mp he with rfl
      exact hp
    | cons b t' =>
      have hlt : t.getLast? = some last := by
        rw [← hl, ht, List.getLast?_cons_cons]
      rcases List.mem_cons.mp he with rfl | het
      · have hlmem : last ∈ t := List.mem_of_mem_getLast? hlt
        have hle : last.priority ≤ e.priority := hrel last hlmem
        omega
      · exact ih hst last hlt p hp e het

theorem pqEnqueue_eq_stableInsert {α : Type} (q : List (PQElem α)) (run : α) (opts : EnqOpts)
    (hs : (q.map (·.priority)).Pairwise (fun a b => b ≤ a)) :
    pqEnqueue q run opts =
      q.takeWhile (fun e => decide (opts.priority.getD 0 ≤ e.priority)) ++
        (⟨opts.priority.getD 0, opts.index, run⟩ : PQElem α) ::
          q.dropWhile (fun e => decide (opts.priority.getD 0 ≤ e.priority)) := by
  unfold pqEnqueue
  dsimp only
  split
  · rename_i hcond
    rcases hcond with h0 | hlast
    · rw [List.length_eq_zero.mp h0]
      rfl
    · cases hql : q.getLast? with
      | none =>
        rw [List.getLast?_eq_none_iff.mp hql]
        rfl
      | some last =>
        rw [hql] at hlast
        have hq' : q.Pairwise fun a b => b.priority ≤ a.priority := by
          have := hs
          rwa [List.pairwise_map] at this
        have hall := all_ge_of_last q hq' last hql (opts.priority.getD 0)
          (of_decide_eq_true hlast)
        rw [List.takeWhile_eq_self_iff.mpr (fun e he => decide_eq_true (hall e he)),
          List.dropWhile_eq_nil_iff.mpr (fun e he => decide_eq_true (hall e he))]
  · rw [lowerBound_eq_length_takeWhile q (opts.priority.getD 0) hs]
    have hgen := insertIdx_at_append
      (⟨opts.priority.getD 0, opts.index, run⟩ : PQElem α)
      (q.takeWhile (fun e => decide (opts.priority.getD 0 ≤ e.priority)))
      (q.dropWhile (fun e => decide (opts.priority.getD 0 ≤ e.priority)))
    rwa [List.takeWhile_append_dropWhile] at hgen

theorem stable_pairwise_sorted (q : List (PQElem Nat)) (h : q.Pairwise stableBefore) :
    (q.map (·.priority)).Pairwise (fun a b => b ≤ a) := by
  rw [List.pairwise_map]
  refine h.imp ?_
  intro a b hab
  rcases hab with h1 | h2
  · exact le_of_lt h1
  · exact le_of_eq h2.1.symm

theorem dropWhile_priority_lt (q : List (PQElem Nat)) (p : Int)
    (hs : (q.map (·.priority)).Pairwise (fun a b => b ≤ a)) :
    ∀ x ∈ q.dropWhile (fun e => decide (p ≤ e.priority)), x.priority < p := by
  intro x hx
  have hd : q.dropWhile (fun e => decide (p ≤ e.priority)) ≠ [] := List.ne_nil_of_mem hx
  have hhead := List.head_dropWhile_not (fun e => decide (p ≤ e.priority)) q hd
  have hheadlt : ((q.dropWhile (fun e => decide (p ≤ e.priority))).head hd).priority < p := by
    simpa using hhead
  have hdp : (q.dropWhile (fun e => decide (p ≤ e.priority))).Pairwise
      (fun a b => b.priority ≤ a.priority) := by
    have hqp : q.Pairwise fun a b => b.priority ≤ a.priority := by
      have := hs
      rwa [List.pairwise_map] at this
    exact hqp.sublist (List.dropWhile_sublist _)
  have hcons := (List.head_cons_tail _ hd).symm
  rw [hcons] at hx
  rcases List.mem_cons.mp hx with rfl | hxt
  · exact hheadlt
  · have hpw := List.pairwise_cons.mp (hcons ▸ hdp)
    have := hpw.1 x hxt
    omega

theorem stableInsert_pairwise (q : List (PQElem Nat)) (p : Int) (idx : Option String) (n : Nat)
    (hq : q.Pairwise stableBefore) (hrun : ∀ e ∈ q, e.run < n) :
    (q.takeWhile (fun e => decide (p ≤ e.priority)) ++
      (⟨p, idx, n⟩ : PQElem Nat) :: q.dropWhile (fun e => decide (p ≤ e.priority))).Pairwise
      stableBefore := by
  have hsorted := stable_pairwise_sorted q hq
  have hq' : (q.takeWhile (fun e => decide (p ≤ e.priority)) ++
      q.dropWhile (fun e => decide (p ≤ e.priority))).Pairwise stableBefore := by
    rw [List.takeWhile_append_dropWhile]
    exact hq
  rw [List.pairwise_append]
  refine ⟨hq.sublist (List.takeWhile_sublist _), ?_, ?_⟩
  · rw [List.pairwise_cons]
    exact ⟨fun x hx => Or.inl (dropWhile_priority_lt q p hsorted x hx),
      hq.sublist (List.dropWhile_sublist _)⟩
  · intro a ha b hb
    rcases List.mem_cons.mp hb with rfl | hb'
    · have hpa : p ≤ a.priority := by
        have := List.mem_takeWhile_imp ha
        simpa using this
      rcases lt_or_eq_of_le hpa with hlt | heq
      · exact Or.inl hlt
      · exact Or.inr ⟨heq.symm, hrun a ((List.takeWhile_sublist _).mem ha)⟩
    · exact (List.pairwise_append.mp hq').2.2 a ha b hb'

theorem runPQ_inv (ops : List PQOp) :
    ∀ (q : List (PQElem Nat)) (n : Nat), q.Pairwise stableBefore → (∀ e ∈ q, e.run < n) →
      (runPQ ops (q, n)).1.Pairwise stableBefore ∧
      (∀ e ∈ (runPQ ops (q, n)).1, e.run < (runPQ ops (q, n)).2) := by
  induction ops with
  | nil => exact fun q n h1 h2 => ⟨h1, h2⟩
  | cons op rest ih =>
    intro q n h1 h2
    cases op with
    | enq p =>
      show (runPQ rest (pqEnqueue q n { priority := p, index := none }, n + 1)).1.Pairwise _ ∧ _
      have hins := pqEnqueue_eq_stableInsert q n { priority := p, index := none }
        (stable_pairwise_sorted q h1)
      apply ih
      · rw [hins]
        exact stableInsert_pairwise q (p.getD 0) none n h1 h2
      · intro e he
        rw [hins] at he
        rcases List.mem_append.mp he with hta | hrest
        · exact Nat.lt_succ_of_lt (h2 e ((List.takeWhile_sublist _).mem hta))
        · rcases List.mem_cons.mp hrest with rfl | hd
          · exact Nat.lt_succ_self n
          · exact Nat.lt_succ_of_lt (h2 e ((List.dropWhile_sublist _).mem hd))
    | deq =>
      apply ih
      · exact h1.sublist (List.tail_sublist q)
      · exact fun e he => h2 e ((List.tail_sublist q).mem he)

/-- C2: for every sequence of enqueue/dequeue operations (enqueued payloads
being consecutive submission numbers, options passed as `PQueue.add` passes
them), the waiting queue is always ordered by the stable discipline —
strictly higher priority first, ties broken by submission order — and hence
each `dequeue` (which shifts the head) returns a task that precedes every
task still waiting: priority-descending admission, FIFO among equal
priorities. -/
theorem priorityQueue_stable (ops : List PQOp) :
    (runPQ ops ([], 0)).1.Pairwise stableBefore ∧
    ∀ h ∈ (pqDequeue (runPQ ops ([], 0)).1).1, ∀ x ∈ (pqDequeue (runPQ ops ([], 0)).1).2,
      stableBefore h x := by
  obtain ⟨hp, _⟩ := runPQ_inv ops [] 0 List.Pairwise.nil (by simp)
  refine ⟨hp, ?_⟩
  intro h hh x hx
  cases hq : (runPQ ops ([], 0)).1 with
  | nil =>
    rw [hq] at hh
    simp [pqDequeue] at hh
  | cons a t =>
    rw [hq] at hh hx hp
    simp only [pqDequeue, List.head?_cons, Option.mem_def, Option.some_inj] at hh
    subst hh
    exact (List.pairwise_cons.mp hp).1 x hx

/-- C2 (witness): enqueue priority 1 then the default priority; the dequeued
head (the priority-1 task, submission number 0) precedes the waiting
priority-0 task (submission number 1). -/
theorem priorityQueue_stable_witness :
    stableBefore ⟨1, none, 0⟩ ⟨0, none, 1⟩ :=
  (priorityQueue_stable [.enq (some 1), .enq none]).2
    ⟨1, none, 0⟩ (by decide) ⟨0, none, 1⟩ (by decide)

/-- C9 (witness for the amended theorem): `sizeBy` with an absent priority
option returns 0 on the concrete one-task queue. -/
theorem sizeBy_nondestructive_counts_priority_witness :
    (sizeByOp none c9State).1 = 0 :=
  (sizeBy_nondestructive_counts_priority none c9State).2.2 rfl

/-- C8 (witness for the amended theorem): with calls
`[some "u", none, none]` and counter 1, the two auto-assigned ids (positions
1 and 2) are distinct. -/
theorem addId_assignment_witness :
    (assignIds [some "u", none, none] 1).getD 1 "" ≠
      (assignIds [some "u", none, none] 1).getD 2 "" :=
  (addId_assignment [some "u", none, none] 1).2.2.2 1 2 (by omega) (by decide) rfl rfl

/-! ### The strict-mode sliding window never exceeds `intervalCap` (C3) -/

theorem inWindow_mono {itv t t' x : Int} (hle : t ≤ t') :
    inWindow itv t' x = true → inWindow itv t x = true := by
  simp only [inWindow, decide_eq_true_eq]
  omega

theorem coe_filter_le_coe_filter (l : List Int) (p q : Int → Bool)
    (h : ∀ b, p b = true → q b = true) :
    (↑(l.filter p) : Multiset Int) ≤ ↑(l.filter q) := by
  have h1 : (↑(l.filter p) : Multiset Int) = Multiset.filter (fun x => p x = true) ↑l := by
    simp [Multiset.filter_coe]
  have h2 : (↑(l.filter q) : Multiset Int) = Multiset.filter (fun x => q x = true) ↑l := by
    simp [Multiset.filter_coe]
  rw [h1, h2]
  exact Multiset.monotone_filter_right _ h

theorem sinv_of_fields {cfg : Config} {t : Int} {s s' : QState}
    (h1 : s'.strictTicks = s.strictTicks)
    (h2 : s'.strictTicksStartIndex = s.strictTicksStartIndex)
    (h3 : s'.ghostExec = s.ghostExec)
    (h : StrictInv cfg t s) : StrictInv cfg t s' := by
  have hat : activeTicks s' = activeTicks s := by
    unfold activeTicks
    rw [h1, h2]
  constructor
  · rw [h1, h2]; exact h.startLe
  · rw [h1]; exact h.ticksSorted
  · rw [h1]; exact h.ticksLe
  · rw [h3]; exact h.ghostSorted
  · rw [h3]; exact h.ghostLe
  · intro hst m hm
    rw [hat]
    exact h.activeBound hst m hm
  · intro hst
    rw [h3, hat]
    exact h.ghostSub hst
  · intro hst m hm t₀
    rw [h3]
    exact h.windowBound hst m hm t₀

theorem sinv_mono {cfg : Config} {t t' : Int} {s : QState} (hle : t ≤ t')
    (h : StrictInv cfg t s) : StrictInv cfg t' s := by
  constructor
  · exact h.startLe
  · exact h.ticksSorted
  · exact fun x hx => le_trans (h.ticksLe x hx) hle
  · exact h.ghostSorted
  · exact fun x hx => le_trans (h.ghostLe x hx) hle
  · intro hst m hm
    exact le_trans (List.countP_mono_left fun x _ hw => inWindow_mono hle hw)
      (h.activeBound hst m hm)
  · intro hst
    exact le_trans
      (coe_filter_le_coe_filter _ _ _ fun b hb => inWindow_mono hle hb)
      (h.ghostSub hst)
  · exact h.windowBound

theorem dropExpiredFrom_ge_le (itv now : Int) (ticks : List Int) :
    ∀ (fuel start : Nat), start ≤ ticks.length →
      start ≤ dropExpiredFrom itv now ticks start fuel ∧
      dropExpiredFrom itv now ticks start fuel ≤ ticks.length := by
  intro fuel
  induction fuel with
  | zero => exact fun start h => ⟨le_refl _, h⟩
  | succ fuel ih =>
    intro start h
    unfold dropExpiredFrom
    split
    · split
      · have := ih (start + 1) (by omega)
        exact ⟨by omega, this.2⟩
      · exact ⟨le_refl _, h⟩
    · exact ⟨le_refl _, h⟩

theorem drop_dropExpiredFrom (itv now : Int) (ticks : List Int) :
    ∀ (fuel start : Nat), start ≤ ticks.length → ticks.length - start ≤ fuel →
      ticks.drop (dropExpiredFrom itv now ticks start fuel) =
        (ticks.drop start).dropWhile (fun x => decide (itv ≤ now - x)) := by
  intro fuel
  induction fuel with
  | zero =>
    intro start h1 h2
    have hs : start = ticks.length := by omega
    show ticks.drop start = _
    rw [hs, List.drop_length]
    rfl
  | succ fuel ih =>
    intro start h1 h2
    unfold dropExpiredFrom
    by_cases hlt : start < ticks.length
    · rw [if_pos hlt]
      have hdrop : ticks.drop start = ticks.get ⟨start, hlt⟩ :: ticks.drop (start + 1) :=
        List.drop_eq_get_cons hlt
      by_cases hexp : itv ≤ now - ticks.getD start 0
      · rw [if_pos hexp, ih (start + 1) (by omega) (by omega), hdrop, List.dropWhile_cons]
        rw [List.getD_eq_get ticks 0 hlt] at hexp
        simp only [List.get_eq_getElem] at hexp
        simp [hexp]
      · rw [if_neg hexp]
        rw [List.getD_eq_get ticks 0 hlt] at hexp
        simp only [List.get_eq_getElem] at hexp
        rw [hdrop, List.dropWhile_cons]
        simp [hexp]
    · rw [if_neg hlt]
      have hs : start = ticks.length := by omega
      rw [hs, List.drop_length]
      rfl

theorem cleanup_strict_props (cfg : Config) (now : Int) (s : QState)
    (hstart : s.strictTicksStartIndex ≤ s.strictTicks.length) :
    activeTicks (cleanupStrictTicks cfg now s) =
      (activeTicks s).dropWhile (fun x => decide (cfg.interval ≤ now - x)) ∧
    (cleanupStrictTicks cfg now s).strictTicksStartIndex ≤
      (cleanupStrictTicks cfg now s).strictTicks.length ∧
    (cleanupStrictTicks cfg now s).ghostExec = s.ghostExec ∧
    (cleanupStrictTicks cfg now s).strictTicks.Sublist s.strictTicks := by
  have hgele := dropExpiredFrom_ge_le cfg.interval now s.strictTicks
    (s.strictTicks.length - s.strictTicksStartIndex) s.strictTicksStartIndex hstart
  have hdrop := drop_dropExpiredFrom cfg.interval now s.strictTicks
    (s.strictTicks.length - s.strictTicksStartIndex) s.strictTicksStartIndex hstart (le_refl _)
  unfold cleanupStrictTicks
  dsimp only
  split
  · refine ⟨?_, by simp, rfl, List.drop_sublist _ _⟩
    show (s.strictTicks.drop _).drop 0 = _
    rw [List.drop_zero]
    exact hdrop
  · exact ⟨hdrop, hgele.2, rfl, List.Sublist.refl _⟩

theorem cleanup_sinv {cfg : Config} {now : Int} {s : QState} (h : StrictInv cfg now s) :
    StrictInv cfg now (cleanupStrictTicks cfg now s) := by
  obtain ⟨hact, hstart', hghost, hsub⟩ := cleanup_strict_props cfg now s h.startLe
  constructor
  · exact hstart'
  · exact h.ticksSorted.sublist hsub
  · exact fun x hx => h.ticksLe x (hsub.mem hx)
  · rw [hghost]; exact h.ghostSorted
  · intro x hx; rw [hghost] at hx; exact h.ghostLe x hx
  · intro hst m hm
    rw [hact]
    exact le_trans (List.Sublist.countP_le _ (List.dropWhile_sublist _))
      (h.activeBound hst m hm)
  · intro hst
    rw [hghost, hact]
    have hsplit := List.takeWhile_append_dropWhile
      (fun x => decide (cfg.interval ≤ now - x)) (activeTicks s)
    have hg := h.ghostSub hst
    have hX : (↑(s.ghostExec.filter (inWindow cfg.interval now)) : Multiset Int) =
        Multiset.filter (fun x => inWindow cfg.interval now x = true)
          ↑(s.ghostExec.filter (inWindow cfg.interval now)) := by
      refine (Multiset.filter_eq_self.mpr ?_).symm
      intro a ha
      have := List.of_mem_filter (Multiset.mem_coe.mp ha)
      exact this
    calc (↑(s.ghostExec.filter (inWindow cfg.interval now)) : Multiset Int)
        = Multiset.filter (fun x => inWindow cfg.interval now x = true)
            ↑(s.ghostExec.filter (inWindow cfg.interval now)) := hX
      _ ≤ Multiset.filter (fun x => inWindow cfg.interval now x = true) ↑(activeTicks s) :=
          Multiset.filter_le_filter _ hg
      _ = Multiset.filter (fun x => inWindow cfg.interval now x = true)
            (↑((activeTicks s).takeWhile (fun x => decide (cfg.interval ≤ now - x))) +
             ↑((activeTicks s).dropWhile (fun x => decide (cfg.interval ≤ now - x)))) := by
          rw [Multiset.coe_add, hsplit]
      _ = Multiset.filter (fun x => inWindow cfg.interval now x = true)
            ↑((activeTicks s).takeWhile (fun x => decide (cfg.interval ≤ now - x))) +
          Multiset.filter (fun x => inWindow cfg.interval now x = true)
            ↑((activeTicks s).dropWhile (fun x => decide (cfg.interval ≤ now - x))) :=
          Multiset.filter_add _ _ _
      _ = 0 + Multiset.filter (fun x => inWindow cfg.interval now x = true)
            ↑((activeTicks s).dropWhile (fun x => decide (cfg.interval ≤ now - x))) := by
          congr 1
          rw [Multiset.filter_eq_nil]
          intro a ha
          have hexp := List.mem_takeWhile_imp (Multiset.mem_coe.mp ha)
          simp only [decide_eq_true_eq] at hexp
          simp only [inWindow, decide_eq_true_eq]
          omega
      _ ≤ ↑((activeTicks s).dropWhile (fun x => decide (cfg.interval ≤ now - x))) := by
          rw [zero_add]
          exact Multiset.filter_le _ _
  · intro hst m hm t₀
    rw [hghost]
    exact h.windowBound hst m hm t₀

theorem sorted_concat (l : List Int) (a : Int) (hs : l.Sorted (· ≤ ·))
    (ha : ∀ x ∈ l, x ≤ a) : (l ++ [a]).Sorted (· ≤ ·) := by
  rw [List.Sorted, List.pairwise_append]
  exact ⟨hs, by simp, by simpa using ha⟩

theorem activeTicks_length (s : QState) : (activeTicks s).length = activeCount s :=
  List.length_drop _ _

theorem createTimeout_sfields (d : Int) (s : QState) :
    (createIntervalTimeout d s).strictTicks = s.strictTicks ∧
    (createIntervalTimeout d s).strictTicksStartIndex = s.strictTicksStartIndex ∧
    (createIntervalTimeout d s).ghostExec = s.ghostExec := by
  unfold createIntervalTimeout
  split <;> exact ⟨rfl, rfl, rfl⟩

theorem initInterval_sfields (cfg : Config) (now : Int) (s : QState) :
    (initIntervalIfNeeded cfg now s).strictTicks = s.strictTicks ∧
    (initIntervalIfNeeded cfg now s).strictTicksStartIndex = s.strictTicksStartIndex ∧
    (initIntervalIfNeeded cfg now s).ghostExec = s.ghostExec := by
  unfold initIntervalIfNeeded
  split <;> exact ⟨rfl, rfl, rfl⟩

theorem strict_not_ignored {cfg : Config} (hv : cfg.Valid) (hst : cfg.strict = true) :
    cfg.ignored = false := by
  obtain ⟨hitv, hcap⟩ := hv.2.2 hst
  rcases hc : cfg.intervalCap with _ | m
  · exact absurd hc hcap
  · simp only [Config.ignored, hc, Option.isNone_some, Bool.false_or]
    simpa using (by omega : cfg.interval ≠ 0)

theorem rollback_strict_fields (cfg : Config) (x : QState) (hst : cfg.strict = true)
    (hig : cfg.ignored = false) (hlt : x.strictTicksStartIndex < x.strictTicks.length) :
    (rollbackIntervalConsumption cfg x).strictTicks = x.strictTicks.dropLast ∧
    (rollbackIntervalConsumption cfg x).strictTicksStartIndex = x.strictTicksStartIndex ∧
    (rollbackIntervalConsumption cfg x).ghostExec = x.ghostExec := by
  unfold rollbackIntervalConsumption rollbackIntervalSlot
  simp only [hig, Bool.false_eq_true, if_false, hst, if_true]
  rw [if_pos hlt]
  exact ⟨rfl, rfl, rfl⟩

theorem sinv_append_ghost_nonstrict {cfg : Config} {now : Int} {s s' : QState}
    (hst : cfg.strict = false)
    (h1 : s'.strictTicks = s.strictTicks)
    (h2 : s'.strictTicksStartIndex = s.strictTicksStartIndex)
    (h3 : s'.ghostExec = s.ghostExec ++ [now])
    (h : StrictInv cfg now s) : StrictInv cfg now s' := by
  constructor
  · rw [h1, h2]; exact h.startLe
  · rw [h1]; exact h.ticksSorted
  · rw [h1]; exact h.ticksLe
  · rw [h3]; exact sorted_concat _ _ h.ghostSorted h.ghostLe
  · rw [h3]
    intro x hx
    rcases List.mem_append.mp hx with hx | hx
    · exact h.ghostLe x hx
    · rw [List.mem_singleton.mp hx]
  · intro hstt; rw [hstt] at hst; cases hst
  · intro hstt; rw [hstt] at hst; cases hst
  · intro hstt; rw [hstt] at hst; cases hst

theorem admitJob_sinv {cfg : Config} {now : Int} (body : TaskBody) {s : QState}
    (hv : cfg.Valid) (h : StrictInv cfg now s)
    (hgate : cfg.strict = true → natLtCap (activeCount s) cfg.intervalCap = true) :
    StrictInv cfg now (admitJob cfg now body s).1 := by
  by_cases hst : cfg.strict
  · have hig : cfg.ignored = false := strict_not_ignored hv hst
    have hcapm := hv.2.2 hst
    unfold admitJob runJobSync consumeIntervalSlot
    simp only [hig, Bool.false_eq_true, if_false, hst, if_true]
    by_cases hab : body.aborted
    · simp only [hab, if_true]
      refine sinv_of_fields ?_ ?_ ?_ h
      · show (rollbackIntervalConsumption cfg _).strictTicks = s.strictTicks
        rw [(rollback_strict_fields cfg _ hst hig (by
          show s.strictTicksStartIndex < (s.strictTicks ++ [now]).length
          have := h.startLe
          simp only [List.length_append, List.length_cons, List.length_nil]
          omega)).1]
        exact List.dropLast_concat
      · show (rollbackIntervalConsumption cfg _).strictTicksStartIndex =
          s.strictTicksStartIndex
        rw [(rollback_strict_fields cfg _ hst hig (by
          show s.strictTicksStartIndex < (s.strictTicks ++ [now]).length
          have := h.startLe
          simp only [List.length_append, List.length_cons, List.length_nil]
          omega)).2.1]
      · show (rollbackIntervalConsumption cfg _).ghostExec = s.ghostExec
        rw [(rollback_strict_fields cfg _ hst hig (by
          show s.strictTicksStartIndex < (s.strictTicks ++ [now]).length
          have := h.startLe
          simp only [List.length_append, List.length_cons, List.length_nil]
          omega)).2.2]
    · simp only [hab, Bool.false_eq_true, if_false]
      have hitv : 0 < cfg.interval := hcapm.1
      obtain ⟨m, hm⟩ : ∃ m, cfg.intervalCap = some m := by
        rcases hc : cfg.intervalCap with _ | m
        · exact absurd hc hcapm.2
        · exact ⟨m, rfl⟩
      have hlt : activeCount s < m := by
        have := hgate hst
        rw [hm] at this
        unfold natLtCap at this
        simpa using this
      have hactlen := activeTicks_length s
      have hdropapp : (s.strictTicks ++ [now]).drop s.strictTicksStartIndex =
          activeTicks s ++ [now] :=
        List.drop_append_of_le_length h.startLe
      have hwinnow : inWindow cfg.interval now now = true := by
        simp only [inWindow, decide_eq_true_eq]
        omega
      constructor
      · show s.strictTicksStartIndex ≤ (s.strictTicks ++ [now]).length
        have := h.startLe
        simp only [List.length_append, List.length_cons, List.length_nil]
        omega
      · exact sorted_concat _ _ h.ticksSorted h.ticksLe
      · intro x hx
        rcases List.mem_append.mp hx with hx | hx
        · exact h.ticksLe x hx
        · rw [List.mem_singleton.mp hx]
      · exact sorted_concat _ _ h.ghostSorted h.ghostLe
      · intro x hx
        rcases List.mem_append.mp hx with hx | hx
        · exact h.ghostLe x hx
        · rw [List.mem_singleton.mp hx]
      · intro _ m' hm'
        rw [hm] at hm'
        injection hm' with hm'
        subst hm'
        show ((s.strictTicks ++ [now]).drop s.strictTicksStartIndex).countP _ ≤ m
        rw [hdropapp, List.countP_append]
        have h1 := List.countP_le_length (l := activeTicks s) (inWindow cfg.interval now)
        have h2 := List.countP_le_length (l := [now]) (inWindow cfg.interval now)
        simp only [List.length_singleton] at h2
        omega
      · intro _
        show (↑((s.ghostExec ++ [now]).filter (inWindow cfg.interval now)) : Multiset Int) ≤
          ↑((s.strictTicks ++ [now]).drop s.strictTicksStartIndex)
        rw [hdropapp, List.filter_append,
          show ([now] : List Int).filter (inWindow cfg.interval now) = [now] by
            simp [hwinnow]]
        rw [← Multiset.coe_add, ← Multiset.coe_add]
        exact add_le_add_right (h.ghostSub hst) _
      · intro _ m' hm' t₀
        rw [hm] at hm'
        injection hm' with hm'
        subst hm'
        show ((s.ghostExec ++ [now]).countP fun x => decide (t₀ - x < cfg.interval ∧ x ≤ t₀)) ≤ m
        rw [List.countP_append]
        by_cases hnw : t₀ - now < cfg.interval ∧ now ≤ t₀
        · have hone : (([now] : List Int).countP fun x =>
              decide (t₀ - x < cfg.interval ∧ x ≤ t₀)) = 1 := by
            simp [hnw.1, hnw.2]
          have hmono : windowCount cfg.interval s.ghostExec t₀ ≤
              s.ghostExec.countP (inWindow cfg.interval now) := by
            unfold windowCount
            apply List.countP_mono_left
            intro x hx hpx
            have hxle := h.ghostLe x hx
            simp only [decide_eq_true_eq] at hpx
            simp only [inWindow, decide_eq_true_eq]
            omega
          have hcard : s.ghostExec.countP (inWindow cfg.interval now) ≤ activeCount s := by
            rw [List.countP_eq_length_filter]
            have hsubc := Multiset.card_le_card (h.ghostSub hst)
            simp only [Multiset.coe_card] at hsubc
            omega
          unfold windowCount at hmono
          omega
        · have hzero : (([now] : List Int).countP fun x =>
              decide (t₀ - x < cfg.interval ∧ x ≤ t₀)) = 0 := by
            simp only [List.countP_singleton]
            simpa using hnw
          have := h.windowBound hst m hm t₀
          unfold windowCount at this
          omega
  · have hstf : cfg.strict = false := by simpa using hst
    unfold admitJob runJobSync consumeIntervalSlot rollbackIntervalConsumption
      rollbackIntervalSlot
    simp only [hstf, Bool.false_eq_true, if_false]
    by_cases hig : cfg.ignored <;> by_cases hab : body.aborted <;>
      simp only [hig, hab, if_true, if_false, Bool.false_eq_true, ite_true, ite_false]
    · refine sinv_of_fields ?_ ?_ ?_ h <;> first | rfl | (split <;> rfl)
    · refine sinv_append_ghost_nonstrict hstf ?_ ?_ ?_ h <;> rfl
    · refine sinv_of_fields ?_ ?_ ?_ h <;> first | rfl | (split <;> rfl)
    · refine sinv_append_ghost_nonstrict hstf ?_ ?_ ?_ h <;> rfl

theorem sinv_transfer {cfg : Config} {t : Int} {s s' : QState} (h : StrictInv cfg t s)
    (h1 : s'.strictTicks = s.strictTicks)
    (h2 : s'.strictTicksStartIndex = s.strictTicksStartIndex)
    (h3 : s'.ghostExec = s.ghostExec) : StrictInv cfg t s' :=
  sinv_of_fields h1 h2 h3 h

theorem pausedAt_sinv {cfg : Config} {now : Int} {s : QState} (h : StrictInv cfg now s) :
    StrictInv cfg now (isIntervalPausedAt cfg now s).1 := by
  unfold isIntervalPausedAt
  by_cases hst : cfg.strict
  · simp only [hst, if_true]
    split
    · exact sinv_of_fields (createTimeout_sfields _ _).1 (createTimeout_sfields _ _).2.1
        (createTimeout_sfields _ _).2.2 (cleanup_sinv h)
    · exact cleanup_sinv h
  · have hstf : cfg.strict = false := by simpa using hst
    simp only [hstf, Bool.false_eq_true, if_false]
    split
    · exact h
    · split
      · split
        · exact sinv_of_fields (createTimeout_sfields _ _).1 (createTimeout_sfields _ _).2.1
            (createTimeout_sfields _ _).2.2 h
        · exact sinv_transfer h rfl rfl rfl
      · exact sinv_of_fields (createTimeout_sfields _ _).1 (createTimeout_sfields _ _).2.1
          (createTimeout_sfields _ _).2.2 h

theorem tryToStart_sinv {cfg : Config} {now : Int} {s : QState} (hv : cfg.Valid)
    (h : StrictInv cfg now s) : StrictInv cfg now (tryToStartAnother cfg now s).1 := by
  have hpa : StrictInv cfg now (isIntervalPausedAt cfg now s).1 := pausedAt_sinv h
  unfold tryToStartAnother
  dsimp only
  split
  · split
    · split
      · exact cleanup_sinv (sinv_transfer h rfl rfl rfl)
      · exact sinv_transfer h rfl rfl rfl
    · exact sinv_transfer h rfl rfl rfl
  · split
    · exact h
    · split
      · rename_i hgate
        split
        · exact hpa
        · rename_i e rest hq
          have hadm : StrictInv cfg now
              (admitJob cfg now e.run
                { (isIntervalPausedAt cfg now s).1 with queue := rest }).1 := by
            refine admitJob_sinv _ hv (sinv_transfer hpa ?_ ?_ ?_) ?_
            · rfl
            · rfl
            · rfl
            · intro hstt
              simp only [Bool.and_eq_true] at hgate
              have hili := hgate.1
              unfold doesIntervalAllowAnother at hili
              simp only [strict_not_ignored hv hstt, Bool.false_eq_true, if_false,
                hstt, if_true] at hili
              exact hili
          split
          · exact sinv_of_fields (initInterval_sfields _ _ _).1
              (initInterval_sfields _ _ _).2.1 (initInterval_sfields _ _ _).2.2 hadm
          · exact hadm
      · exact hpa

theorem processQueueAux_sinv (cfg : Config) (now : Int) (hv : cfg.Valid) :
    ∀ (fuel : Nat) (s : QState), StrictInv cfg now s →
      StrictInv cfg now (processQueueAux cfg now fuel s) := by
  intro fuel
  induction fuel with
  | zero => exact fun s h => h
  | succ fuel ih =>
    intro s h
    unfold processQueueAux
    dsimp only
    split
    · exact ih _ (tryToStart_sinv hv h)
    · exact tryToStart_sinv hv h

theorem processQueue_sinv {cfg : Config} {now : Int} {s : QState} (hv : cfg.Valid)
    (h : StrictInv cfg now s) : StrictInv cfg now (processQueue cfg now s) :=
  processQueueAux_sinv cfg now hv _ s h

theorem updateRate_sinv {cfg : Config} {now : Int} {s : QState} (h : StrictInv cfg now s) :
    StrictInv cfg now (updateRateLimitState cfg now s) := by
  unfold updateRateLimitState
  split
  · split
    · exact sinv_transfer h rfl rfl rfl
    · exact h
  · by_cases hst : cfg.strict
    · simp only [hst, if_true]
      exact sinv_transfer (cleanup_sinv h) rfl rfl rfl
    · have hstf : cfg.strict = false := by simpa using hst
      simp only [hstf, Bool.false_eq_true, if_false]
      exact sinv_transfer h rfl rfl rfl

theorem addOp_sinv {cfg : Config} {now : Int} {o : AddOpts} {s : QState} (hv : cfg.Valid)
    (h : StrictInv cfg now s) : StrictInv cfg now (addOp cfg now o s) := by
  unfold addOp
  dsimp only
  exact tryToStart_sinv hv (sinv_transfer h rfl rfl rfl)

theorem nextOp_sinv {cfg : Config} {now : Int} {s : QState} (hv : cfg.Valid)
    (h : StrictInv cfg now s) : StrictInv cfg now (nextOp cfg now s) := by
  unfold nextOp
  dsimp only
  exact tryToStart_sinv hv (sinv_transfer h rfl rfl rfl)

theorem onIntervalOp_sinv {cfg : Config} {now : Int} {s : QState} (hv : cfg.Valid)
    (h : StrictInv cfg now s) : StrictInv cfg now (onIntervalOp cfg now s) := by
  unfold onIntervalOp
  dsimp only
  split
  · refine processQueue_sinv hv (sinv_of_fields ?_ ?_ ?_ h) <;> (split <;> rfl)
  · exact processQueue_sinv hv h

theorem onResumeOp_sinv {cfg : Config} {now : Int} {s : QState} (hv : cfg.Valid)
    (h : StrictInv cfg now s) : StrictInv cfg now (onResumeOp cfg now s) := by
  unfold onResumeOp
  dsimp only
  exact sinv_of_fields (initInterval_sfields _ _ _).1 (initInterval_sfields _ _ _).2.1
    (initInterval_sfields _ _ _).2.2
    (onIntervalOp_sinv hv (sinv_transfer h rfl rfl rfl))

theorem startOp_sinv {cfg : Config} {now : Int} {s : QState} (hv : cfg.Valid)
    (h : StrictInv cfg now s) : StrictInv cfg now (startOp cfg now s) := by
  unfold startOp
  split
  · exact h
  · exact processQueue_sinv hv (sinv_transfer h rfl rfl rfl)

theorem setConcOp_sinv {cfg : Config} {now : Int} {c : Option Nat} {s : QState}
    (hv : cfg.Valid) (h : StrictInv cfg now s) :
    StrictInv cfg now (setConcOp cfg now c s) :=
  processQueue_sinv hv (sinv_transfer h rfl rfl rfl)

theorem clearOp_sinv {cfg : Config} {now : Int} {s : QState} (h : StrictInv cfg now s) :
    StrictInv cfg now (clearOp cfg now s) := by
  unfold clearOp
  dsimp only
  have h2 : StrictInv cfg now (updateRateLimitState cfg now
      { s with queue := ([] : List (PQElem TaskBody)), intervalId := false }) :=
    updateRate_sinv (sinv_transfer h rfl rfl rfl)
  split
  · exact sinv_transfer h2 rfl rfl rfl
  · exact h2

theorem setPriorityOp_sfields {id : String} {p : Int} {s s' : QState}
    (h : setPriorityOp id p s = .ok s') :
    s'.strictTicks = s.strictTicks ∧
    s'.strictTicksStartIndex = s.strictTicksStartIndex ∧
    s'.ghostExec = s.ghostExec := by
  unfold setPriorityOp at h
  split at h
  · exact absurd h (by simp)
  · injection h with h
    subst h
    exact ⟨rfl, rfl, rfl⟩

theorem step_sinv {cfg : Config} {now : Int} {s s' : QState} (hv : cfg.Valid)
    (hs : Step cfg now s s') (h : StrictInv cfg now s) : StrictInv cfg now s' := by
  cases hs with
  | add o => exact addOp_sinv hv h
  | complete sym hmem => exact sinv_transfer h rfl rfl rfl
  | nextTick hn => exact nextOp_sinv hv h
  | start => exact startOp_sinv hv h
  | pause => exact sinv_transfer h rfl rfl rfl
  | clear => exact clearOp_sinv h
  | setConc c hc => exact setConcOp_sinv hv h
  | setPrio id p s' hok =>
    obtain ⟨h1, h2, h3⟩ := setPriorityOp_sfields hok
    exact sinv_of_fields h1 h2 h3 h
  | windowFire hw => exact onIntervalOp_sinv hv h
  | resumeFire hrt => exact onResumeOp_sinv hv h
  | flush => exact updateRate_sinv h

theorem initState_sinv (cfg : Config) (t : Int) (conc : Option Nat) (autoStart : Bool)
    (td : Option Int) : StrictInv cfg t (initState conc autoStart td) := by
  constructor
  · exact le_refl _
  · exact List.sorted_nil
  · intro x hx
    exact absurd hx (List.not_mem_nil x)
  · exact List.sorted_nil
  · intro x hx
    exact absurd hx (List.not_mem_nil x)
  · intro _ m _
    exact Nat.zero_le m
  · intro _
    exact le_refl _
  · intro _ m _ t₀
    exact Nat.zero_le m

theorem reach_valid {cfg : Config} {t : Int} {s : QState} (h : Reach cfg t s) :
    cfg.Valid := by
  induction h with
  | init t₀ conc autoStart td h₀ hc hv => exact hv
  | step hr hle hs ih => exact ih

theorem reach_sinv {cfg : Config} {t : Int} {s : QState} (h : Reach cfg t s) :
    StrictInv cfg t s := by
  induction h with
  | init t₀ conc autoStart td h₀ hc hv => exact initState_sinv cfg t₀ conc autoStart td
  | step hr hle hs ih => exact step_sinv (reach_valid hr) hs (sinv_mono hle ih)

/-- C3: in strict mode, in every reachable state of the queue the number of
recorded admission timestamps — the entries of `strict-ticks` counted from
the circular-buffer start index — whose timestamp lies within the last
`interval` ms of the current time (or of any later probe time) is at most
`interval-cap`; and the admission history itself obeys the rolling-window
law: every window `(t₀ − interval, t₀]` contains at most `interval-cap`
admissions that actually started a task. -/
theorem strict_rolling_window_bound {cfg : Config} {t : Int} {s : QState}
    (h : Reach cfg t s) (hst : cfg.strict = true) {m : Nat}
    (hm : cfg.intervalCap = some m) :
    (∀ t', t ≤ t' → (activeTicks s).countP (inWindow cfg.interval t') ≤ m) ∧
    ∀ t₀, windowCount cfg.interval s.ghostExec t₀ ≤ m := by
  have hinv := reach_sinv h
  exact ⟨fun t' hle => (sinv_mono hle hinv).activeBound hst m hm,
    hinv.windowBound hst m hm⟩

theorem strict_rolling_window_bound_witness :
    (∀ t', (0 : Int) ≤ t' →
      (activeTicks (initState none true none)).countP (inWindow cfg3.interval t') ≤ 2) ∧
    ∀ t₀, windowCount cfg3.interval (initState none true none).ghostExec t₀ ≤ 2 :=
  strict_rolling_window_bound
    (Reach.init 0 none true none (by decide) (by decide) (by decide) :
      Reach cfg3 0 (initState none true none))
    rfl rfl

end PQ
